import Mathlib

/-!
# Binary row decoding of the Go MySQL driver (`columnfuncs.go`, `trace_debug.go`)

A shallow embedding of the column decoders (`storeCol` functions), of
`binaryRows.init` and of the buffer ownership traces of the diagnostic build,
followed by theorems about them.

Conventions of the embedding

* a Go `[]byte` is a `List Byte` with `Byte = Fin 256`; the capacity of a slice
  is taken equal to its length;
* a Go run-time panic (index or slice bounds out of range) is the result `none`;
* a `storeCol` has the Go signature
  `func(dest *driver.Value, data []byte, pos int) (int, error)`; it is embedded
  as a function of the old content of `*dest`, the buffer and the cursor that
  returns the new content of `*dest` together with the two Go results;
* unsigned machine integers are `Nat`, signed ones are `Int`; conversions and
  arithmetic wrap explicitly, `int` being 64 bits wide;
* functions and constants that are declared outside the files at hand are
  parameters, or definitions whose comment says what they are modelled from.
-/

namespace Mysql

/-! ## Data model -/

/-- One element of a Go `[]byte`. -/
abbrev Byte := Fin 256

/-- The Go `error` values that occur: an error made by `fmt.Errorf` is identified
with its message, `TruncatedData` is the error kind the specification names for
a length-encoded string that is cut short. -/
inductive Error where
  | errorf (msg : String)
  | TruncatedData
  deriving DecidableEq, Repr

/-- A `*time.Location` of Go's standard library, identified by its zone name. -/
structure Location where
  name : String
  deriving DecidableEq, Repr

/-- A `time.Time` of Go's standard library: an instant, as seconds and
nanoseconds since the Unix epoch, together with its location. -/
structure Time where
  unix : Int
  nsec : Nat
  loc : Location
  deriving DecidableEq, Repr

/-- The dynamic content of a `driver.Value` slot, restricted to the kinds the
integer, byte-string, TIME and date decoders store (`nil`, `int64`, `uint64`,
`[]byte`, `time.Time`). -/
inductive Value where
  | null
  | int64 (v : Int)
  | uint64 (v : Nat)
  | bytes (b : List Byte)
  | time (t : Time)
  deriving DecidableEq, Repr

/-- What a `storeCol` call leaves behind when it returns: the content of `*dest`,
the returned byte count and the returned error (`none` is Go's `nil`). -/
structure Ret where
  dest : Value
  n : Int
  err : Option Error
  deriving DecidableEq, Repr

/-! ## Go primitives -/

/-- Go conversion of an integer to the signed `w`-bit type: the low `w` bits are
kept and read as two's complement. -/
def toSigned (w : Nat) (x : Int) : Int :=
  let m := x % 2 ^ w
  if m < 2 ^ (w - 1) then m else m - 2 ^ w

/-- The conversion `int8(x)`. -/
def int8 (x : Int) : Int := toSigned 8 x

/-- The conversion `int16(x)`. -/
def int16 (x : Int) : Int := toSigned 16 x

/-- The conversion `int64(x)`. -/
def int64 (x : Int) : Int := toSigned 64 x

/-- The slice expression `data[lo:hi]`. Go checks `hi` against the capacity of
`data`; the embedding takes the capacity of a buffer equal to its length, so
the expression panics unless `lo ≤ hi ≤ len(data)`. For `hi ≤ len(data)` the
result is the same whatever the capacity. -/
def slice (data : List Byte) (lo hi : Nat) : Option (List Byte) :=
  if lo ≤ hi ∧ hi ≤ data.length then some ((data.take hi).drop lo) else none

/-- The slice expression `data[lo:]`; it panics unless `lo ≤ len(data)`. -/
def sliceFrom (data : List Byte) (lo : Nat) : Option (List Byte) :=
  if lo ≤ data.length then some (data.drop lo) else none

/-- The shift `x << k` on an unsigned `w`-bit operand. -/
def shl (w x k : Nat) : Nat := (x <<< k) % 2 ^ w

/-- The library function `binary.LittleEndian.Uint16`:
`uint16(b[0]) | uint16(b[1])<<8`. -/
def Uint16 (b : List Byte) : Option Nat := do
  let b0 ← b[0]?
  let b1 ← b[1]?
  pure (b0.val ||| shl 16 b1.val 8)

/-- The library function `binary.LittleEndian.Uint32`:
`uint32(b[0]) | uint32(b[1])<<8 | uint32(b[2])<<16 | uint32(b[3])<<24`. -/
def Uint32 (b : List Byte) : Option Nat := do
  let b0 ← b[0]?
  let b1 ← b[1]?
  let b2 ← b[2]?
  let b3 ← b[3]?
  pure (b0.val ||| shl 32 b1.val 8 ||| shl 32 b2.val 16 ||| shl 32 b3.val 24)

/-- The library function `binary.LittleEndian.Uint64`: the bitwise or of the
eight bytes, byte `i` shifted left by `8*i`. -/
def Uint64 (b : List Byte) : Option Nat := do
  let b0 ← b[0]?
  let b1 ← b[1]?
  let b2 ← b[2]?
  let b3 ← b[3]?
  let b4 ← b[4]?
  let b5 ← b[5]?
  let b6 ← b[6]?
  let b7 ← b[7]?
  pure (b0.val ||| shl 64 b1.val 8 ||| shl 64 b2.val 16 ||| shl 64 b3.val 24
    ||| shl 64 b4.val 32 ||| shl 64 b5.val 40 ||| shl 64 b6.val 48 ||| shl 64 b7.val 56)

/-! ## Fixed-width integer decoders -/

/-- `storeUint8`: `*dest = int64(uint8(data[pos])); return 1, nil`. -/
def storeUint8 (_dest : Value) (data : List Byte) (pos : Nat) : Option Ret := do
  let b ← data[pos]?
  pure ⟨.int64 (int64 b.val), 1, none⟩

/-- `storeInt8`: `*dest = int64(int8(data[pos])); return 1, nil`. -/
def storeInt8 (_dest : Value) (data : List Byte) (pos : Nat) : Option Ret := do
  let b ← data[pos]?
  pure ⟨.int64 (int64 (int8 b.val)), 1, none⟩

/-- `storeUint16`: `*dest = int64(binary.LittleEndian.Uint16(data[pos : pos+2]))`. -/
def storeUint16 (_dest : Value) (data : List Byte) (pos : Nat) : Option Ret := do
  let s ← slice data pos (pos + 2)
  let u ← Uint16 s
  pure ⟨.int64 (int64 u), 2, none⟩

/-- `storeInt16`: `*dest = int64(int16(binary.LittleEndian.Uint16(data[pos : pos+2])))`. -/
def storeInt16 (_dest : Value) (data : List Byte) (pos : Nat) : Option Ret := do
  let s ← slice data pos (pos + 2)
  let u ← Uint16 s
  pure ⟨.int64 (int64 (int16 u)), 2, none⟩

/-- `storeUint32`: `*dest = int64(binary.LittleEndian.Uint32(data[pos : pos+4]))`. -/
def storeUint32 (_dest : Value) (data : List Byte) (pos : Nat) : Option Ret := do
  let s ← slice data pos (pos + 4)
  let u ← Uint32 s
  pure ⟨.int64 (int64 u), 4, none⟩

/-- `storeInt32`: `*dest = int64(int16(binary.LittleEndian.Uint32(data[pos : pos+4])))`;
the inner conversion is `int16`, as in the source. -/
def storeInt32 (_dest : Value) (data : List Byte) (pos : Nat) : Option Ret := do
  let s ← slice data pos (pos + 4)
  let u ← Uint32 s
  pure ⟨.int64 (int64 (int16 u)), 4, none⟩

/-- `storeUint64`: `*dest = binary.LittleEndian.Uint64(data[pos : pos+8])`. -/
def storeUint64 (_dest : Value) (data : List Byte) (pos : Nat) : Option Ret := do
  let s ← slice data pos (pos + 8)
  let u ← Uint64 s
  pure ⟨.uint64 u, 8, none⟩

/-- `storeInt64`: `*dest = int64(binary.LittleEndian.Uint64(data[pos : pos+8]))`. -/
def storeInt64 (_dest : Value) (data : List Byte) (pos : Nat) : Option Ret := do
  let s ← slice data pos (pos + 8)
  let u ← Uint64 s
  pure ⟨.int64 (int64 u), 8, none⟩

/-! ## The decode plan: `binaryRows.init` -/

/-- The named constants `binaryRows.init` refers to. Their declarations are not
part of the files at hand, so they are a parameter of the embedding: the
field-type tags and the flag mask `flagUnsigned`. -/
structure Consts where
  fieldTypeNULL : Nat
  fieldTypeTiny : Nat
  fieldTypeShort : Nat
  fieldTypeYear : Nat
  fieldTypeInt24 : Nat
  fieldTypeLong : Nat
  fieldTypeLongLong : Nat
  fieldTypeFloat : Nat
  fieldTypeDouble : Nat
  fieldTypeDecimal : Nat
  fieldTypeNewDecimal : Nat
  fieldTypeVarChar : Nat
  fieldTypeBit : Nat
  fieldTypeEnum : Nat
  fieldTypeSet : Nat
  fieldTypeTinyBLOB : Nat
  fieldTypeMediumBLOB : Nat
  fieldTypeLongBLOB : Nat
  fieldTypeBLOB : Nat
  fieldTypeVarString : Nat
  fieldTypeString : Nat
  fieldTypeGeometry : Nat
  fieldTypeDate : Nat
  fieldTypeNewDate : Nat
  fieldTypeTime : Nat
  fieldTypeTimestamp : Nat
  fieldTypeDateTime : Nat
  flagUnsigned : Nat

/-- The tags named in the `switch` of `binaryRows.init`, in the order of the
source: the recognised field types. Go rejects a `switch` with two equal
constant cases, so in a program that compiles this list has no duplicates. -/
def Consts.tags (c : Consts) : List Nat :=
  [c.fieldTypeNULL, c.fieldTypeTiny, c.fieldTypeShort, c.fieldTypeYear, c.fieldTypeInt24,
   c.fieldTypeLong, c.fieldTypeLongLong, c.fieldTypeFloat, c.fieldTypeDouble,
   c.fieldTypeDecimal, c.fieldTypeNewDecimal, c.fieldTypeVarChar, c.fieldTypeBit,
   c.fieldTypeEnum, c.fieldTypeSet, c.fieldTypeTinyBLOB, c.fieldTypeMediumBLOB,
   c.fieldTypeLongBLOB, c.fieldTypeBLOB, c.fieldTypeVarString, c.fieldTypeString,
   c.fieldTypeGeometry, c.fieldTypeDate, c.fieldTypeNewDate, c.fieldTypeTime,
   c.fieldTypeTimestamp, c.fieldTypeDateTime]

/-- The constants with the values of the MySQL client/server protocol; a
concrete assignment at which statements are instantiated. -/
def protocolConsts : Consts where
  fieldTypeDecimal := 0
  fieldTypeTiny := 1
  fieldTypeShort := 2
  fieldTypeLong := 3
  fieldTypeFloat := 4
  fieldTypeDouble := 5
  fieldTypeNULL := 6
  fieldTypeTimestamp := 7
  fieldTypeLongLong := 8
  fieldTypeInt24 := 9
  fieldTypeDate := 10
  fieldTypeTime := 11
  fieldTypeDateTime := 12
  fieldTypeYear := 13
  fieldTypeNewDate := 14
  fieldTypeVarChar := 15
  fieldTypeBit := 16
  fieldTypeNewDecimal := 246
  fieldTypeEnum := 247
  fieldTypeSet := 248
  fieldTypeTinyBLOB := 249
  fieldTypeMediumBLOB := 250
  fieldTypeLongBLOB := 251
  fieldTypeBLOB := 252
  fieldTypeVarString := 253
  fieldTypeString := 254
  fieldTypeGeometry := 255
  flagUnsigned := 32

/-- The receiver type `timeLocation` of the zoned date decoder. -/
structure timeLocation where
  loc : Location
  deriving DecidableEq, Repr

/-- A value of the function type `storeCol`: which decoder is bound. The zoned
date decoder is the method value `timeLocation{loc}.storeParsedBinaryDate`, so
it carries its receiver. -/
inductive storeCol where
  | storeNull
  | storeUint8
  | storeInt8
  | storeUint16
  | storeInt16
  | storeUint32
  | storeInt32
  | storeUint64
  | storeInt64
  | storeFloat32
  | storeFloat64
  | storeLengthCodedBinary
  | storeBinaryDate
  | storeBinaryDateTime
  | storeParsedBinaryDate (t : timeLocation)
  | storeTime
  deriving DecidableEq, Repr

/-- The fields of a column descriptor that `init` reads. -/
structure mysqlField where
  fieldType : Nat
  flags : Nat
  deriving DecidableEq, Repr

/-- The field `loc` of the connection configuration. -/
structure config where
  loc : Location
  deriving DecidableEq, Repr

/-- The fields of `mysqlConn` that `dateStorer` reads. -/
structure mysqlConn where
  cfg : config
  parseTime : Bool
  deriving DecidableEq, Repr

/-- The fields of `binaryRows` that `init` reads and writes; an entry `none` of
`storer` is a nil function value. -/
structure binaryRows where
  mc : mysqlConn
  columns : List mysqlField
  storer : List (Option storeCol)
  deriving DecidableEq, Repr

/-- `mysqlConn.dateStorer`. -/
def mysqlConn.dateStorer (mc : mysqlConn) (dateTime : Bool) : storeCol :=
  if mc.parseTime then
    .storeParsedBinaryDate ⟨mc.cfg.loc⟩
  else if dateTime then
    .storeBinaryDateTime
  else
    .storeBinaryDate

/-- The body of the loop of `binaryRows.init` for one column: the decoder the
`switch` assigns to `storers[i]`, or `none` when the `default` case is taken. -/
def initSwitch (c : Consts) (mc : mysqlConn) (col : mysqlField) : Option storeCol :=
  let unsigned : Bool := col.flags &&& c.flagUnsigned != 0
  if col.fieldType = c.fieldTypeNULL then
    some .storeNull
  else if col.fieldType = c.fieldTypeTiny then
    some (if unsigned then .storeUint8 else .storeInt8)
  else if col.fieldType = c.fieldTypeShort ∨ col.fieldType = c.fieldTypeYear then
    some (if unsigned then .storeUint16 else .storeInt16)
  else if col.fieldType = c.fieldTypeInt24 ∨ col.fieldType = c.fieldTypeLong then
    some (if unsigned then .storeUint32 else .storeInt32)
  else if col.fieldType = c.fieldTypeLongLong then
    some (if unsigned then .storeUint64 else .storeInt64)
  else if col.fieldType = c.fieldTypeFloat then
    some .storeFloat32
  else if col.fieldType = c.fieldTypeDouble then
    some .storeFloat64
  else if col.fieldType = c.fieldTypeDecimal ∨ col.fieldType = c.fieldTypeNewDecimal
      ∨ col.fieldType = c.fieldTypeVarChar ∨ col.fieldType = c.fieldTypeBit
      ∨ col.fieldType = c.fieldTypeEnum ∨ col.fieldType = c.fieldTypeSet
      ∨ col.fieldType = c.fieldTypeTinyBLOB ∨ col.fieldType = c.fieldTypeMediumBLOB
      ∨ col.fieldType = c.fieldTypeLongBLOB ∨ col.fieldType = c.fieldTypeBLOB
      ∨ col.fieldType = c.fieldTypeVarString ∨ col.fieldType = c.fieldTypeString
      ∨ col.fieldType = c.fieldTypeGeometry then
    some .storeLengthCodedBinary
  else if col.fieldType = c.fieldTypeDate ∨ col.fieldType = c.fieldTypeNewDate then
    some (mc.dateStorer false)
  else if col.fieldType = c.fieldTypeTime then
    some .storeTime
  else if col.fieldType = c.fieldTypeTimestamp ∨ col.fieldType = c.fieldTypeDateTime then
    some (mc.dateStorer true)
  else
    none

/-- The text `fmt.Errorf("Unknown FieldType %d in column %d", fieldType, i)` makes. -/
def unknownFieldType (fieldType i : Nat) : Error :=
  .errorf ("Unknown FieldType " ++ toString fieldType ++ " in column " ++ toString i)

/-- The loop `for i, col := range rows.columns` of `binaryRows.init`, from
index `i` on, over the slice `storers`: the filled slice when the loop runs
to its end, the error of the `return` in the `default` case otherwise. -/
def initLoop (c : Consts) (mc : mysqlConn) :
    List mysqlField → Nat → List (Option storeCol) → Except Error (List (Option storeCol))
  | [], _, storers => .ok storers
  | col :: cols, i, storers =>
    match initSwitch c mc col with
    | some s => initLoop c mc cols (i + 1) (storers.set i (some s))
    | none => .error (unknownFieldType col.fieldType i)

/-- `binaryRows.init`: the receiver after the call and the returned error.
`storers` starts as `make([]storeCol, len(rows.columns))`, all nil; `rows.storer`
is assigned only after the loop has run to its end. -/
def binaryRows.init (c : Consts) (rows : binaryRows) : binaryRows × Option Error :=
  match initLoop c rows.mc rows.columns 0 (List.replicate rows.columns.length none) with
  | .ok storers => ({ rows with storer := storers }, none)
  | .error e => (rows, some e)

/-! ## The length-encoded codec -/

/-- The number a byte sequence denotes in little-endian order. -/
def littleEndian : List Byte → Nat
  | [] => 0
  | x :: xs => x.val + 256 * littleEndian xs

/-- The next `k` bytes of `b` as a little-endian number, when `b` has them. -/
def nextLittleEndian (b : List Byte) (k : Nat) : Option Nat :=
  if k ≤ b.length then some (littleEndian (b.take k)) else none

/-- Modelled from the spec: `readLengthEncodedInteger`, which `columnfuncs.go`
calls as `num, isNull, n := readLengthEncodedInteger(data[pos:])` and whose
source file is not at hand. After the contract of the length-encoded integer:
a first byte below `0xfb` is the value, consumed 1; `0xfb` is the NULL
sentinel, consumed 1; `0xfc`, `0xfd`, `0xfe` announce the next 2, 3, 8 bytes
in little-endian order, consumed 3, 4, 9. The contract leaves the value that
comes with the NULL sentinel undefined; `storeTime` tests `isNull` only under
`num == 0`, so it is 0 here. The result is `none` where the contract gives no
result for the three-valued signature: no first byte, announced bytes that
are missing, and the leading byte `0xff` (a protocol-format error). -/
def readLengthEncodedInteger : List Byte → Option (Nat × Bool × Nat)
  | [] => none
  | b0 :: rest =>
    if b0.val < 0xfb then some (b0.val, false, 1)
    else if b0.val = 0xfb then some (0, true, 1)
    else if b0.val = 0xfc then (nextLittleEndian rest 2).map fun v => (v, false, 3)
    else if b0.val = 0xfd then (nextLittleEndian rest 3).map fun v => (v, false, 4)
    else if b0.val = 0xfe then (nextLittleEndian rest 8).map fun v => (v, false, 9)
    else none

/-- Modelled from the spec: `readLengthEncodedString`, which `columnfuncs.go`
calls as `*dest, isNull, n, err = readLengthEncodedString(data[pos:])` and
whose source file is not at hand. After the contract of the length-encoded
string: read a length-encoded integer; for the NULL sentinel yield null and
advance past the 1-byte marker; otherwise return the next `length` bytes and
the number of bytes consumed; fail with `TruncatedData` when fewer than
`length` bytes remain. The contract does not say what count accompanies
`TruncatedData`; it is the size of the prefix here. -/
def readLengthEncodedString (b : List Byte) : Option (List Byte × Bool × Nat × Option Error) :=
  match readLengthEncodedInteger b with
  | none => none
  | some (num, isNull, n) =>
    if isNull then some ([], true, n, none)
    else if b.length < n + num then some ([], false, n, some .TruncatedData)
    else some ((b.drop n).take num, false, n + num, none)

/-- `storeLengthCodedBinary`: the four results of `readLengthEncodedString(data[pos:])`
are assigned to `*dest, isNull, n, err`; `*dest` is reset to nil when `isNull`. -/
def storeLengthCodedBinary (_dest : Value) (data : List Byte) (pos : Nat) : Option Ret := do
  let b ← sliceFrom data pos
  let (v, isNull, n, err) ← readLengthEncodedString b
  let dest := if isNull then Value.null else Value.bytes v
  pure ⟨dest, n, err⟩

/-! ## The TIME decoder -/

/-- The verb `%0wd` of `fmt.Sprintf` on an unsigned operand: the decimal digits,
padded on the left with zeros up to the width `w`. -/
def zeroPad (w v : Nat) : String :=
  String.mk (List.replicate (w - (toString v).length) '0') ++ toString v

/-- The conversion `[]byte(s)` for a text of ASCII characters, one byte each. -/
def bytesOf (s : String) : List Byte :=
  s.toList.map fun ch => Fin.ofNat ch.toNat

/-- The hours operand `uint16(d)*24 + uint16(h)` of `storeTime`, in 16-bit
unsigned arithmetic. -/
def hoursOf (d h : Byte) : Nat := (d.val * 24 % 2 ^ 16 + h.val) % 2 ^ 16

/-- `storeTime`. The operands of `Sprintf` are evaluated in order; the format
is `sign+"%02d:%02d:%02d"`, with `".%06d"` appended for a 12-byte payload. -/
def storeTime (dest : Value) (data : List Byte) (pos : Nat) : Option Ret := do
  let b ← sliceFrom data pos
  let (num, isNull, n) ← readLengthEncodedInteger b
  if num = 0 then
    if isNull then
      pure ⟨.null, n, none⟩
    else
      pure ⟨.bytes (bytesOf "00:00:00"), n, none⟩
  else
    let s ← data[pos + n]?
    let sign := if s.val = 1 then "-" else ""
    let pos := pos + (n + 1)
    if num = 8 then
      let d ← data[pos]?
      let h ← data[pos + 4]?
      let m ← data[pos + 5]?
      let sec ← data[pos + 6]?
      pure ⟨.bytes (bytesOf (sign ++ zeroPad 2 (hoursOf d h) ++ ":" ++ zeroPad 2 m.val
        ++ ":" ++ zeroPad 2 sec.val)), n + 8, none⟩
    else if num = 12 then
      let d ← data[pos]?
      let h ← data[pos + 4]?
      let m ← data[pos + 5]?
      let sec ← data[pos + 6]?
      let us ← slice data (pos + 7) (pos + 11)
      let micro ← Uint32 us
      pure ⟨.bytes (bytesOf (sign ++ zeroPad 2 (hoursOf d h) ++ ":" ++ zeroPad 2 m.val
        ++ ":" ++ zeroPad 2 sec.val ++ "." ++ zeroPad 6 micro)), n + 12, none⟩
    else
      pure ⟨dest, n, some (.errorf ("Invalid TIME-packet length " ++ toString num))⟩

/-! ## The date decoders -/

/-- The conversion `int(x)` and the wrap of `int` arithmetic, `int` being 64
bits wide. -/
def int (x : Int) : Int := toSigned 64 x

/-- `storeBinaryDate`. The function `formatBinaryDate(num, data)`, which returns
a value and an error, is declared outside the files at hand and is a
parameter; its result `none` is a panic inside it. -/
def storeBinaryDate (formatBinaryDate : Nat → List Byte → Option (Value × Option Error))
    (_dest : Value) (data : List Byte) (pos : Nat) : Option Ret := do
  let b ← sliceFrom data pos
  let (num, isNull, n) ← readLengthEncodedInteger b
  if isNull then
    pure ⟨.null, n, none⟩
  else
    let rest ← sliceFrom data (pos + n)
    let (v, err) ← formatBinaryDate num rest
    pure ⟨v, int (n + int num), err⟩

/-- `storeBinaryDateTime`. The function `formatBinaryDateTime(num, data)` is
declared outside the files at hand and is a parameter. -/
def storeBinaryDateTime
    (formatBinaryDateTime : Nat → List Byte → Option (Value × Option Error))
    (_dest : Value) (data : List Byte) (pos : Nat) : Option Ret := do
  let b ← sliceFrom data pos
  let (num, isNull, n) ← readLengthEncodedInteger b
  if isNull then
    pure ⟨.null, n, none⟩
  else
    let rest ← sliceFrom data (pos + n)
    let (v, err) ← formatBinaryDateTime num rest
    pure ⟨v, int (n + int num), err⟩

/-- `timeLocation.storeParsedBinaryDate`. The function
`parseBinaryDateTime(num, data, loc)` is declared outside the files at hand and
is a parameter. -/
def timeLocation.storeParsedBinaryDate
    (parseBinaryDateTime : Nat → List Byte → Location → Option (Value × Option Error))
    (t : timeLocation) (_dest : Value) (data : List Byte) (pos : Nat) : Option Ret := do
  let b ← sliceFrom data pos
  let (num, isNull, n) ← readLengthEncodedInteger b
  if isNull then
    pure ⟨.null, n, none⟩
  else
    let rest ← sliceFrom data (pos + n)
    let (v, err) ← parseBinaryDateTime num rest t.loc
    pure ⟨v, int (n + int num), err⟩

/-! ## Buffer ownership traces (`trace_debug.go`) -/

/-- The type `frames`, a slice of program counters (`[]uintptr`). -/
abbrev frames := List Nat

/-- The constant `traceSkip`. -/
def traceSkip : Nat := 3

/-- The constant `traceLen`. -/
def traceLen : Int := 4

/-- The library function `runtime.Callers(skip, pcs)` on a goroutine whose call
stack is `stack` (program counters, innermost first, entry 0 being `Callers`
itself): the entries from `skip` on are written to the front of `pcs`, as many
as fit; the results are their number and `pcs` after the call. -/
def Callers (stack : List Nat) (skip : Nat) (pcs : List Nat) : Nat × List Nat :=
  let got := (stack.drop skip).take pcs.length
  (got.length, got ++ pcs.drop got.length)

/-- `trace(skip, max)`, called with the call stack `stack`. -/
def trace (stack : List Nat) (skip : Nat) (max : Int) : frames :=
  let max := if max ≤ 0 then 5 else max
  let pcs := List.replicate max.toNat 0
  let (n, pcs) := Callers stack skip pcs
  if n = 0 then [] else pcs

/-- The field of `buffer` that `trace_debug.go` uses; the type itself is
declared outside the files at hand. -/
structure buffer where
  frames : frames
  deriving DecidableEq, Repr

/-- An operand of `errLog.Print`, of the two dynamic types that occur. -/
inductive Operand where
  | str (s : String)
  | frames (fs : frames)
  deriving DecidableEq, Repr

/-- `buffer.aquire`, called with the call stack `stack`: the receiver after the
call. -/
def buffer.aquire (b : buffer) (stack : List Nat) : buffer :=
  { b with frames := trace stack traceSkip traceLen }

/-- `buffer.collision`, called with the call stack `stack`: the receiver after
the call and the logger `errLog` after the call, a logger being the list of the
operand lists it was handed by `Print`. -/
def buffer.collision (b : buffer) (errLog : List (List Operand)) (stack : List Nat) :
    buffer × List (List Operand) :=
  (b, errLog ++ [[.str "buffer owned by ", .frames b.frames, .str " wanted by ",
    .frames (trace stack traceSkip traceLen)]])

/-! ## Reference values used in the statements -/

/-- The byte at index `i` as a number, `0` outside the buffer. -/
def byteAt (data : List Byte) (i : Nat) : Nat := (data.getD i 0).val

/-- The little-endian unsigned number formed by `data[pos .. pos+w)`:
the sum of `data[pos+i] * 256^i`. -/
def leValue (data : List Byte) (pos w : Nat) : Nat :=
  ∑ i in Finset.range w, byteAt data (pos + i) * 256 ^ i

/-- The two's-complement reading of a `w`-byte unsigned number `u`, as the
claims word it: `u` below `2^(8w-1)`, `u - 2^(8w)` from there on. -/
def twosComplement (w : Nat) (u : Nat) : Int :=
  if u < 2 ^ (8 * w - 1) then (u : Int) else (u : Int) - 2 ^ (8 * w)

/-- The number a list of decimal digit characters denotes, most significant
digit first. -/
def decimalValue (l : List Char) : Nat :=
  l.foldl (fun acc ch => acc * 10 + (ch.toNat - 48)) 0

/-! ## The `switch` of `init` as a case table -/

/-- First-match evaluation of a case table: the result of the first row whose
label list holds `t`. -/
def switchEval {β : Type} : List (List Nat × β) → Nat → Option β
  | [], _ => none
  | (labels, r) :: rest, t => if t ∈ labels then some r else switchEval rest t

/-- All labels of a case table, in order. -/
def labelsOf {β : Type} : List (List Nat × β) → List Nat
  | [] => []
  | (labels, _) :: rest => labels ++ labelsOf rest

/-- The `switch` of `binaryRows.init` as a case table, in the order of the source. -/
def initTable (c : Consts) (mc : mysqlConn) (unsigned : Bool) : List (List Nat × storeCol) :=
  [([c.fieldTypeNULL], .storeNull),
   ([c.fieldTypeTiny], if unsigned then .storeUint8 else .storeInt8),
   ([c.fieldTypeShort, c.fieldTypeYear], if unsigned then .storeUint16 else .storeInt16),
   ([c.fieldTypeInt24, c.fieldTypeLong], if unsigned then .storeUint32 else .storeInt32),
   ([c.fieldTypeLongLong], if unsigned then .storeUint64 else .storeInt64),
   ([c.fieldTypeFloat], .storeFloat32),
   ([c.fieldTypeDouble], .storeFloat64),
   ([c.fieldTypeDecimal, c.fieldTypeNewDecimal, c.fieldTypeVarChar, c.fieldTypeBit,
     c.fieldTypeEnum, c.fieldTypeSet, c.fieldTypeTinyBLOB, c.fieldTypeMediumBLOB,
     c.fieldTypeLongBLOB, c.fieldTypeBLOB, c.fieldTypeVarString, c.fieldTypeString,
     c.fieldTypeGeometry], .storeLengthCodedBinary),
   ([c.fieldTypeDate, c.fieldTypeNewDate], mc.dateStorer false),
   ([c.fieldTypeTime], .storeTime),
   ([c.fieldTypeTimestamp, c.fieldTypeDateTime], mc.dateStorer true)]

/-! ## Auxiliary lemmas: slices and little-endian values -/

theorem slice_of_le (data : List Byte) (pos w : Nat) (h : pos + w ≤ data.length) :
    slice data pos (pos + w) = some ((data.take (pos + w)).drop pos) := by
  simp [slice, h]

theorem slice_getElem? (data : List Byte) (pos w i : Nat) (h : pos + w ≤ data.length)
    (hi : i < w) :
    ((data.take (pos + w)).drop pos)[i]? = some (data.getD (pos + i) 0) := by
  have h1 : pos + i < data.length := by omega
  rw [List.getElem?_drop, List.getElem?_take_of_lt (by omega), List.getD_eq_getElem?_getD,
    List.getElem?_eq_getElem h1]
  rfl

theorem byteAt_lt (data : List Byte) (i : Nat) : byteAt data i < 256 :=
  (data.getD i 0).isLt

theorem lor_mul_pow (a x k : Nat) (h : a < 2 ^ k) : a ||| x * 2 ^ k = a + x * 2 ^ k := by
  rw [Nat.lor_comm, Nat.mul_comm, ← Nat.mul_add_lt_is_or h, Nat.add_comm]

theorem shl_eq (w x k : Nat) (h : x * 2 ^ k < 2 ^ w) : shl w x k = x * 2 ^ k := by
  rw [shl, Nat.shiftLeft_eq, Nat.mod_eq_of_lt h]

theorem or16 (a b : Nat) (ha : a < 256) (hb : b < 256) :
    a ||| shl 16 b 8 = a + b * 256 := by
  rw [shl_eq 16 b 8 (by omega), lor_mul_pow a b 8 (by omega)]
  norm_num

theorem or32 (a b c d : Nat) (ha : a < 256) (hb : b < 256) (hc : c < 256) (hd : d < 256) :
    a ||| shl 32 b 8 ||| shl 32 c 16 ||| shl 32 d 24
      = a + b * 256 + c * 256 ^ 2 + d * 256 ^ 3 := by
  rw [shl_eq 32 b 8 (by omega), shl_eq 32 c 16 (by omega), shl_eq 32 d 24 (by omega),
    lor_mul_pow a b 8 (by omega), lor_mul_pow _ c 16 (by omega),
    lor_mul_pow _ d 24 (by omega)]
  norm_num

theorem or64 (a b c d e f g h : Nat) (ha : a < 256) (hb : b < 256) (hc : c < 256)
    (hd : d < 256) (he : e < 256) (hf : f < 256) (hg : g < 256) (hh : h < 256) :
    a ||| shl 64 b 8 ||| shl 64 c 16 ||| shl 64 d 24 ||| shl 64 e 32 ||| shl 64 f 40
        ||| shl 64 g 48 ||| shl 64 h 56
      = a + b * 256 + c * 256 ^ 2 + d * 256 ^ 3 + e * 256 ^ 4 + f * 256 ^ 5 + g * 256 ^ 6
        + h * 256 ^ 7 := by
  rw [shl_eq 64 b 8 (by omega), shl_eq 64 c 16 (by omega), shl_eq 64 d 24 (by omega),
    shl_eq 64 e 32 (by omega), shl_eq 64 f 40 (by omega), shl_eq 64 g 48 (by omega),
    shl_eq 64 h 56 (by omega),
    lor_mul_pow a b 8 (by omega), lor_mul_pow _ c 16 (by omega),
    lor_mul_pow _ d 24 (by omega), lor_mul_pow _ e 32 (by omega),
    lor_mul_pow _ f 40 (by omega), lor_mul_pow _ g 48 (by omega),
    lor_mul_pow _ h 56 (by omega)]
  norm_num

theorem leValue_lt (data : List Byte) (pos w : Nat) : leValue data pos w < 256 ^ w := by
  induction w with
  | zero => simp [leValue]
  | succ w ih =>
    have hb := byteAt_lt data (pos + w)
    have hs : leValue data pos (w + 1) = leValue data pos w + byteAt data (pos + w) * 256 ^ w := by
      simp [leValue, Finset.sum_range_succ]
    rw [hs, pow_succ]
    nlinarith

theorem Uint16_slice (data : List Byte) (pos : Nat) (h : pos + 2 ≤ data.length) :
    (slice data pos (pos + 2)).bind Uint16 = some (leValue data pos 2) := by
  rw [slice_of_le data pos 2 h]
  simp only [Option.some_bind, Uint16, Option.bind_eq_bind, Option.pure_def,
    slice_getElem? data pos 2 0 h (by omega), slice_getElem? data pos 2 1 h (by omega)]
  rw [or16 _ _ (Fin.isLt _) (Fin.isLt _)]
  simp [leValue, Finset.sum_range_succ, byteAt]

theorem Uint32_slice (data : List Byte) (pos : Nat) (h : pos + 4 ≤ data.length) :
    (slice data pos (pos + 4)).bind Uint32 = some (leValue data pos 4) := by
  rw [slice_of_le data pos 4 h]
  simp only [Option.some_bind, Uint32, Option.bind_eq_bind, Option.pure_def,
    slice_getElem? data pos 4 0 h (by omega), slice_getElem? data pos 4 1 h (by omega),
    slice_getElem? data pos 4 2 h (by omega), slice_getElem? data pos 4 3 h (by omega)]
  rw [or32 _ _ _ _ (Fin.isLt _) (Fin.isLt _) (Fin.isLt _) (Fin.isLt _)]
  simp [leValue, Finset.sum_range_succ, byteAt]

theorem Uint64_slice (data : List Byte) (pos : Nat) (h : pos + 8 ≤ data.length) :
    (slice data pos (pos + 8)).bind Uint64 = some (leValue data pos 8) := by
  rw [slice_of_le data pos 8 h]
  simp only [Option.some_bind, Uint64, Option.bind_eq_bind, Option.pure_def,
    slice_getElem? data pos 8 0 h (by omega), slice_getElem? data pos 8 1 h (by omega),
    slice_getElem? data pos 8 2 h (by omega), slice_getElem? data pos 8 3 h (by omega),
    slice_getElem? data pos 8 4 h (by omega), slice_getElem? data pos 8 5 h (by omega),
    slice_getElem? data pos 8 6 h (by omega), slice_getElem? data pos 8 7 h (by omega)]
  rw [or64 _ _ _ _ _ _ _ _ (Fin.isLt _) (Fin.isLt _) (Fin.isLt _) (Fin.isLt _)
    (Fin.isLt _) (Fin.isLt _) (Fin.isLt _) (Fin.isLt _)]
  simp [leValue, Finset.sum_range_succ, byteAt]

theorem index_eq (data : List Byte) (pos : Nat) (h : pos + 1 ≤ data.length) :
    data[pos]? = some (data.getD pos 0) ∧ (data.getD pos 0).val = leValue data pos 1 := by
  have h1 : pos < data.length := by omega
  refine ⟨?_, by simp [leValue, byteAt]⟩
  rw [List.getD_eq_getElem?_getD, List.getElem?_eq_getElem h1]
  rfl

theorem int64_of_small (u : Nat) (h : u < 2 ^ 63) : int64 (u : Int) = (u : Int) := by
  have h1 : (u : Int) % 2 ^ 64 = u := by omega
  simp only [int64, toSigned, h1]
  rw [if_pos (by omega)]

theorem toSigned_eq_twosComplement (w : Nat) (u : Nat) (h : u < 256 ^ w) :
    toSigned (8 * w) (u : Int) = twosComplement w u := by
  have hp : (256 : Nat) ^ w = 2 ^ (8 * w) := by
    rw [pow_mul]; norm_num
  have h0 : (u : Int) % 2 ^ (8 * w) = u := by
    apply Int.emod_eq_of_lt (by omega)
    have : u < 2 ^ (8 * w) := hp ▸ h
    exact_mod_cast this
  simp only [toSigned, twosComplement, h0]
  have : ((u : Int) < 2 ^ (8 * w - 1)) ↔ (u < 2 ^ (8 * w - 1)) := by
    constructor
    · intro hh; exact_mod_cast hh
    · intro hh; exact_mod_cast hh
  simp only [this]

theorem int64_of_range (x : Int) (h1 : -(2 ^ 63) ≤ x) (h2 : x < 2 ^ 63) : int64 x = x := by
  simp only [int64, toSigned]
  split <;> omega

theorem twosComplement_range (w : Nat) (u : Nat) (hw : 0 < w) (h : u < 256 ^ w) :
    -(2 ^ (8 * w - 1)) ≤ twosComplement w u ∧ twosComplement w u < 2 ^ (8 * w - 1) := by
  have hp : (256 : Nat) ^ w = 2 ^ (8 * w - 1) * 2 := by
    rw [← pow_succ, Nat.sub_add_cancel (by omega), pow_mul]; norm_num
  have hq : ((2 : Int) ^ (8 * w)) = 2 ^ (8 * w - 1) * 2 := by
    rw [← pow_succ, Nat.sub_add_cancel (by omega)]
  have hu : (u : Int) < 2 ^ (8 * w - 1) * 2 := by
    have : u < 2 ^ (8 * w - 1) * 2 := hp ▸ h
    exact_mod_cast this
  have hpos : (0 : Int) < 2 ^ (8 * w - 1) := by positivity
  unfold twosComplement
  split
  · rename_i hlt
    have : (u : Int) < 2 ^ (8 * w - 1) := by exact_mod_cast hlt
    constructor <;> omega
  · rename_i hge
    have : (2 : Int) ^ (8 * w - 1) ≤ u := by
      have : 2 ^ (8 * w - 1) ≤ u := by omega
      exact_mod_cast this
    rw [hq]
    constructor <;> omega

/-! ## The fixed-width integer decoders -/

/-- C1. With `w` bytes left at the cursor (`pos + w ≤ len(data)`), `storeUint8`,
`storeUint16`, `storeUint32` and `storeUint64` (`w = 1, 2, 4, 8`) return no error
and the count `w`, and store the little-endian unsigned number of
`data[pos .. pos+w)`: as an `int64` that is non-negative and below `2^(8w)` for
widths 1, 2, 4, as a `uint64` for width 8. The byte `0xFF` decodes to 255. -/
theorem C1_unsigned_decoders (dest : Value) (data : List Byte) (pos : Nat) :
    (pos + 1 ≤ data.length →
      storeUint8 dest data pos = some ⟨.int64 (leValue data pos 1), 1, none⟩
        ∧ (0 : Int) ≤ leValue data pos 1 ∧ (leValue data pos 1 : Int) < 2 ^ 8)
    ∧ (pos + 2 ≤ data.length →
      storeUint16 dest data pos = some ⟨.int64 (leValue data pos 2), 2, none⟩
        ∧ (0 : Int) ≤ leValue data pos 2 ∧ (leValue data pos 2 : Int) < 2 ^ 16)
    ∧ (pos + 4 ≤ data.length →
      storeUint32 dest data pos = some ⟨.int64 (leValue data pos 4), 4, none⟩
        ∧ (0 : Int) ≤ leValue data pos 4 ∧ (leValue data pos 4 : Int) < 2 ^ 32)
    ∧ (pos + 8 ≤ data.length →
      storeUint64 dest data pos = some ⟨.uint64 (leValue data pos 8), 8, none⟩
        ∧ leValue data pos 8 < 2 ^ 64)
    ∧ storeUint8 dest [0xFF] 0 = some ⟨.int64 255, 1, none⟩ := by
  refine ⟨?_, ?_, ?_, ?_, rfl⟩
  · intro h
    have hlt := leValue_lt data pos 1
    obtain ⟨hi, hv⟩ := index_eq data pos h
    refine ⟨?_, by omega, by omega⟩
    simp only [storeUint8, hi, Option.bind_eq_bind, Option.some_bind, Option.pure_def, hv]
    rw [int64_of_small _ (by omega)]
  · intro h
    have hlt := leValue_lt data pos 2
    have hu := Uint16_slice data pos h
    refine ⟨?_, by omega, by omega⟩
    rw [Option.bind_eq_some] at hu
    obtain ⟨s, hs, hu⟩ := hu
    simp only [storeUint16, hs, hu, Option.bind_eq_bind, Option.some_bind, Option.pure_def]
    rw [int64_of_small _ (by omega)]
  · intro h
    have hlt := leValue_lt data pos 4
    have hu := Uint32_slice data pos h
    refine ⟨?_, by omega, by omega⟩
    rw [Option.bind_eq_some] at hu
    obtain ⟨s, hs, hu⟩ := hu
    simp only [storeUint32, hs, hu, Option.bind_eq_bind, Option.some_bind, Option.pure_def]
    rw [int64_of_small _ (by omega)]
  · intro h
    have hlt := leValue_lt data pos 8
    have hu := Uint64_slice data pos h
    refine ⟨?_, by omega⟩
    rw [Option.bind_eq_some] at hu
    obtain ⟨s, hs, hu⟩ := hu
    simp only [storeUint64, hs, hu, Option.bind_eq_bind, Option.some_bind, Option.pure_def]

/-- C1, at the buffer `01 02 03 04 05 06 07 08` and cursor 0: all four unsigned
decoders succeed there with the little-endian values. -/
theorem C1_unsigned_decoders_witness :
    storeUint8 .null [1, 2, 3, 4, 5, 6, 7, 8] 0
        = some ⟨.int64 (leValue [1, 2, 3, 4, 5, 6, 7, 8] 0 1), 1, none⟩
      ∧ storeUint16 .null [1, 2, 3, 4, 5, 6, 7, 8] 0
        = some ⟨.int64 (leValue [1, 2, 3, 4, 5, 6, 7, 8] 0 2), 2, none⟩
      ∧ storeUint32 .null [1, 2, 3, 4, 5, 6, 7, 8] 0
        = some ⟨.int64 (leValue [1, 2, 3, 4, 5, 6, 7, 8] 0 4), 4, none⟩
      ∧ storeUint64 .null [1, 2, 3, 4, 5, 6, 7, 8] 0
        = some ⟨.uint64 (leValue [1, 2, 3, 4, 5, 6, 7, 8] 0 8), 8, none⟩ :=
  have h := C1_unsigned_decoders .null [1, 2, 3, 4, 5, 6, 7, 8] 0
  ⟨(h.1 (by decide)).1, (h.2.1 (by decide)).1, (h.2.2.1 (by decide)).1,
    (h.2.2.2.1 (by decide)).1⟩

/-- C2. With `w` bytes left at the cursor, `storeInt8`, `storeInt16` and
`storeInt64` (`w = 1, 2, 8`) return no error and the count `w`, and store as an
`int64` the two's-complement reading of the little-endian `w`-byte payload.
The byte `0xFF` decodes to -1. -/
theorem C2_signed_decoders (dest : Value) (data : List Byte) (pos : Nat) :
    (pos + 1 ≤ data.length →
      storeInt8 dest data pos
        = some ⟨.int64 (twosComplement 1 (leValue data pos 1)), 1, none⟩)
    ∧ (pos + 2 ≤ data.length →
      storeInt16 dest data pos
        = some ⟨.int64 (twosComplement 2 (leValue data pos 2)), 2, none⟩)
    ∧ (pos + 8 ≤ data.length →
      storeInt64 dest data pos
        = some ⟨.int64 (twosComplement 8 (leValue data pos 8)), 8, none⟩)
    ∧ storeInt8 dest [0xFF] 0 = some ⟨.int64 (-1), 1, none⟩ := by
  refine ⟨?_, ?_, ?_, rfl⟩
  · intro h
    have hlt := leValue_lt data pos 1
    obtain ⟨hi, hv⟩ := index_eq data pos h
    have hr := twosComplement_range 1 _ (by omega) hlt
    simp only [storeInt8, hi, Option.bind_eq_bind, Option.some_bind, Option.pure_def, hv,
      int8]
    rw [toSigned_eq_twosComplement 1 _ hlt, int64_of_range _ (by omega) (by omega)]
  · intro h
    have hlt := leValue_lt data pos 2
    have hu := Uint16_slice data pos h
    have hr := twosComplement_range 2 _ (by omega) hlt
    rw [Option.bind_eq_some] at hu
    obtain ⟨s, hs, hu⟩ := hu
    simp only [storeInt16, hs, hu, Option.bind_eq_bind, Option.some_bind, Option.pure_def,
      int16]
    rw [toSigned_eq_twosComplement 2 _ hlt, int64_of_range _ (by omega) (by omega)]
  · intro h
    have hlt := leValue_lt data pos 8
    have hu := Uint64_slice data pos h
    rw [Option.bind_eq_some] at hu
    obtain ⟨s, hs, hu⟩ := hu
    simp only [storeInt64, hs, hu, Option.bind_eq_bind, Option.some_bind, Option.pure_def,
      int64]
    rw [toSigned_eq_twosComplement 8 _ hlt]

/-- C2, at the buffer `FF FF FF FF FF FF FF 7F` and cursor 0: the three signed
decoders succeed there with the two's-complement values. -/
theorem C2_signed_decoders_witness :
    storeInt8 .null [0xFF, 0xFF, 0xFF, 0xFF, 0xFF, 0xFF, 0xFF, 0x7F] 0
        = some ⟨.int64 (twosComplement 1
            (leValue [0xFF, 0xFF, 0xFF, 0xFF, 0xFF, 0xFF, 0xFF, 0x7F] 0 1)), 1, none⟩
      ∧ storeInt16 .null [0xFF, 0xFF, 0xFF, 0xFF, 0xFF, 0xFF, 0xFF, 0x7F] 0
        = some ⟨.int64 (twosComplement 2
            (leValue [0xFF, 0xFF, 0xFF, 0xFF, 0xFF, 0xFF, 0xFF, 0x7F] 0 2)), 2, none⟩
      ∧ storeInt64 .null [0xFF, 0xFF, 0xFF, 0xFF, 0xFF, 0xFF, 0xFF, 0x7F] 0
        = some ⟨.int64 (twosComplement 8
            (leValue [0xFF, 0xFF, 0xFF, 0xFF, 0xFF, 0xFF, 0xFF, 0x7F] 0 8)), 8, none⟩ :=
  have h := C2_signed_decoders .null [0xFF, 0xFF, 0xFF, 0xFF, 0xFF, 0xFF, 0xFF, 0x7F] 0
  ⟨h.1 (by decide), h.2.1 (by decide), h.2.2.1 (by decide)⟩

/-- C3 (the code at a failing input). The payload `A0 86 01 00` is the 32-bit
number 100000, whose 32-bit two's-complement reading is 100000; `storeInt32`
stores -31072, the 16-bit reading of the low two bytes. -/
theorem C3_storeInt32_narrows_to_16_bits :
    storeInt32 .null [0xA0, 0x86, 0x01, 0x00] 0 = some ⟨.int64 (-31072), 4, none⟩
      ∧ leValue [0xA0, 0x86, 0x01, 0x00] 0 4 = 100000
      ∧ twosComplement 4 100000 = 100000 := by
  refine ⟨by decide, by decide, by decide⟩

/-! ## Auxiliary lemmas: the decode plan -/

theorem initSwitch_eq_switchEval (c : Consts) (mc : mysqlConn) (col : mysqlField) :
    initSwitch c mc col
      = switchEval (initTable c mc (col.flags &&& c.flagUnsigned != 0)) col.fieldType := by
  unfold initSwitch initTable
  simp only [switchEval, List.mem_cons, List.mem_singleton, List.not_mem_nil, or_false]

theorem tags_eq_labelsOf (c : Consts) (mc : mysqlConn) (u : Bool) :
    c.tags = labelsOf (initTable c mc u) := rfl

theorem switchEval_isSome_iff {β : Type} (tbl : List (List Nat × β)) (t : Nat) :
    (switchEval tbl t).isSome ↔ t ∈ labelsOf tbl := by
  induction tbl with
  | nil => simp [switchEval, labelsOf]
  | cons row rest ih =>
    obtain ⟨labels, r⟩ := row
    by_cases h : t ∈ labels
    · simp [switchEval, labelsOf, h]
    · simp [switchEval, labelsOf, h, ih]

theorem switchEval_of_mem {β : Type} (tbl : List (List Nat × β)) (t : Nat)
    (hd : (labelsOf tbl).Nodup) (labels : List Nat) (r : β) (hm : (labels, r) ∈ tbl)
    (ht : t ∈ labels) : switchEval tbl t = some r := by
  induction tbl with
  | nil => simp at hm
  | cons row rest ih =>
    obtain ⟨l0, r0⟩ := row
    simp only [labelsOf, List.nodup_append] at hd
    obtain ⟨_, hdr, hdis⟩ := hd
    rcases List.mem_cons.1 hm with heq | hin
    · injection heq with h1 h2
      subst h1 h2
      simp [switchEval, ht]
    · have hnot : t ∉ l0 := by
        intro h0
        have : t ∈ labelsOf rest := by
          rw [← switchEval_isSome_iff, ih hdr hin]
          rfl
        exact hdis h0 this
      simp only [switchEval, if_neg hnot]
      exact ih hdr hin

theorem initSwitch_isSome_iff (c : Consts) (mc : mysqlConn) (col : mysqlField) :
    (initSwitch c mc col).isSome ↔ col.fieldType ∈ c.tags := by
  rw [initSwitch_eq_switchEval, switchEval_isSome_iff]
  rfl

theorem initLoop_ok (c : Consts) (mc : mysqlConn) (cols : List mysqlField) :
    ∀ (i : Nat) (storers : List (Option storeCol)),
      (∀ col ∈ cols, col.fieldType ∈ c.tags) → storers.length = i + cols.length →
      initLoop c mc cols i storers = .ok (storers.take i ++ cols.map (initSwitch c mc)) := by
  induction cols with
  | nil =>
    intro i storers _ hlen
    simp only [initLoop, List.map_nil, List.append_nil]
    rw [List.take_of_length_le (by simp at hlen; omega)]
  | cons col cols ih =>
    intro i storers hrec hlen
    have hs := (initSwitch_isSome_iff c mc col).2 (hrec col (List.mem_cons_self _ _))
    obtain ⟨s, hs⟩ := Option.isSome_iff_exists.1 hs
    simp only [List.length_cons] at hlen
    have hi : i < storers.length := by omega
    simp only [initLoop, hs]
    rw [ih (i + 1) _ (fun x hx => hrec x (List.mem_cons_of_mem _ hx))
      (by rw [List.length_set]; omega)]
    congr 1
    rw [List.map_cons, hs, List.set_eq_take_append_cons_drop, if_pos hi,
      List.take_append_eq_append_take, List.take_take]
    simp [List.length_take, Nat.min_eq_left (Nat.le_of_lt hi)]

theorem initLoop_error (c : Consts) (mc : mysqlConn) (pre : List mysqlField) :
    ∀ (bad : mysqlField) (rest : List mysqlField) (i : Nat) (storers : List (Option storeCol)),
      (∀ col ∈ pre, col.fieldType ∈ c.tags) → bad.fieldType ∉ c.tags →
      initLoop c mc (pre ++ bad :: rest) i storers
        = .error (unknownFieldType bad.fieldType (i + pre.length)) := by
  induction pre with
  | nil =>
    intro bad rest i storers _ hbad
    have hn : initSwitch c mc bad = none := by
      rw [← Option.not_isSome_iff_eq_none, initSwitch_isSome_iff]
      exact hbad
    simp [initLoop, hn]
  | cons col pre ih =>
    intro bad rest i storers hrec hbad
    have hs := (initSwitch_isSome_iff c mc col).2 (hrec col (List.mem_cons_self _ _))
    obtain ⟨s, hs⟩ := Option.isSome_iff_exists.1 hs
    simp only [List.cons_append, initLoop, hs, List.append_eq]
    rw [ih bad rest (i + 1) _ (fun x hx => hrec x (List.mem_cons_of_mem _ hx)) hbad]
    simp only [List.length_cons]
    congr 2
    omega

theorem exists_first_not {α : Type} (p : α → Prop) (l : List α) (h : ∃ x ∈ l, ¬ p x) :
    ∃ pre bad rest, l = pre ++ bad :: rest ∧ (∀ x ∈ pre, p x) ∧ ¬ p bad := by
  induction l with
  | nil => simp at h
  | cons a l ih =>
    by_cases ha : p a
    · obtain ⟨x, hx, hpx⟩ := h
      have hx2 : x ∈ l := by
        rcases List.mem_cons.1 hx with rfl | hx
        · exact absurd ha hpx
        · exact hx
      obtain ⟨pre, bad, rest, hl, hpre, hbad⟩ := ih ⟨x, hx2, hpx⟩
      refine ⟨a :: pre, bad, rest, by simp [hl], ?_, hbad⟩
      intro y hy
      rcases List.mem_cons.1 hy with rfl | hy
      · exact ha
      · exact hpre y hy
    · exact ⟨[], a, l, rfl, by simp, ha⟩

theorem initSwitch_case (c : Consts) (mc : mysqlConn) (col : mysqlField) (hd : c.tags.Nodup)
    (labels : List Nat) (r : storeCol)
    (hm : (labels, r) ∈ initTable c mc (col.flags &&& c.flagUnsigned != 0))
    (ht : col.fieldType ∈ labels) : initSwitch c mc col = some r := by
  rw [initSwitch_eq_switchEval]
  exact switchEval_of_mem _ _ (tags_eq_labelsOf c mc _ ▸ hd) labels r hm ht

theorem init_ok (c : Consts) (rows : binaryRows)
    (hrec : ∀ col ∈ rows.columns, col.fieldType ∈ c.tags) :
    binaryRows.init c rows
      = ({ rows with storer := rows.columns.map (initSwitch c rows.mc) }, none) := by
  simp only [binaryRows.init]
  rw [initLoop_ok c rows.mc rows.columns 0 _ hrec (by simp)]
  simp

theorem init_error (c : Consts) (rows : binaryRows) (pre : List mysqlField) (bad : mysqlField)
    (rest : List mysqlField) (hcols : rows.columns = pre ++ bad :: rest)
    (hpre : ∀ col ∈ pre, col.fieldType ∈ c.tags) (hbad : bad.fieldType ∉ c.tags) :
    binaryRows.init c rows = (rows, some (unknownFieldType bad.fieldType pre.length)) := by
  simp only [binaryRows.init]
  rw [hcols, initLoop_error c rows.mc pre bad rest 0 _ hpre hbad]
  simp

/-! ## The decode plan -/

/-- C4. When every column's field type is one of the recognised tags,
`binaryRows.init` returns no error and installs a plan with one entry per
column; entry `i` is fixed by the type and the unsigned flag of column `i`:
NULL → `storeNull`; Tiny → 8-bit; Short, Year → 16-bit; Int24, Long → 32-bit;
LongLong → 64-bit (unsigned decoder iff the unsigned flag is set); Float →
`storeFloat32`; Double → `storeFloat64`; the thirteen string-like types →
`storeLengthCodedBinary`; Date, NewDate → `dateStorer(false)`; Time →
`storeTime`; Timestamp, DateTime → `dateStorer(true)`. -/
theorem C4_init_plan (c : Consts) (rows : binaryRows) (hd : c.tags.Nodup)
    (hrec : ∀ col ∈ rows.columns, col.fieldType ∈ c.tags) :
    (binaryRows.init c rows).2 = none
    ∧ (binaryRows.init c rows).1.storer.length = rows.columns.length
    ∧ ∀ (i : Nat) (col : mysqlField), rows.columns[i]? = some col →
      ∃ s, (binaryRows.init c rows).1.storer[i]? = some (some s)
        ∧ (col.fieldType = c.fieldTypeNULL → s = .storeNull)
        ∧ (col.fieldType = c.fieldTypeTiny →
            s = if col.flags &&& c.flagUnsigned ≠ 0 then .storeUint8 else .storeInt8)
        ∧ (col.fieldType ∈ [c.fieldTypeShort, c.fieldTypeYear] →
            s = if col.flags &&& c.flagUnsigned ≠ 0 then .storeUint16 else .storeInt16)
        ∧ (col.fieldType ∈ [c.fieldTypeInt24, c.fieldTypeLong] →
            s = if col.flags &&& c.flagUnsigned ≠ 0 then .storeUint32 else .storeInt32)
        ∧ (col.fieldType = c.fieldTypeLongLong →
            s = if col.flags &&& c.flagUnsigned ≠ 0 then .storeUint64 else .storeInt64)
        ∧ (col.fieldType = c.fieldTypeFloat → s = .storeFloat32)
        ∧ (col.fieldType = c.fieldTypeDouble → s = .storeFloat64)
        ∧ (col.fieldType ∈ [c.fieldTypeDecimal, c.fieldTypeNewDecimal, c.fieldTypeVarChar,
              c.fieldTypeBit, c.fieldTypeEnum, c.fieldTypeSet, c.fieldTypeTinyBLOB,
              c.fieldTypeMediumBLOB, c.fieldTypeLongBLOB, c.fieldTypeBLOB,
              c.fieldTypeVarString, c.fieldTypeString, c.fieldTypeGeometry] →
            s = .storeLengthCodedBinary)
        ∧ (col.fieldType ∈ [c.fieldTypeDate, c.fieldTypeNewDate] →
            s = rows.mc.dateStorer false)
        ∧ (col.fieldType = c.fieldTypeTime → s = .storeTime)
        ∧ (col.fieldType ∈ [c.fieldTypeTimestamp, c.fieldTypeDateTime] →
            s = rows.mc.dateStorer true) := by
  rw [init_ok c rows hrec]
  refine ⟨rfl, by simp, ?_⟩
  intro i col hcol
  have hmem : col ∈ rows.columns := List.getElem?_mem hcol
  obtain ⟨s, hs⟩ := Option.isSome_iff_exists.1
    ((initSwitch_isSome_iff c rows.mc col).2 (hrec col hmem))
  have key : ∀ (labels : List Nat) (r : storeCol),
      (labels, r) ∈ initTable c rows.mc (col.flags &&& c.flagUnsigned != 0) →
      col.fieldType ∈ labels → s = r := by
    intro labels r hm ht
    have h := initSwitch_case c rows.mc col hd labels r hm ht
    rw [hs] at h
    exact Option.some.inj h
  have hb : ∀ (a b : storeCol),
      (if (col.flags &&& c.flagUnsigned != 0) = true then a else b)
        = if col.flags &&& c.flagUnsigned ≠ 0 then a else b := by
    intro a b
    by_cases hz : col.flags &&& c.flagUnsigned = 0 <;> simp [hz]
  refine ⟨s, by simp [List.getElem?_map, hcol, hs], ?_, ?_, ?_, ?_, ?_, ?_, ?_, ?_, ?_, ?_, ?_⟩
  · exact fun h => key [c.fieldTypeNULL] _ (by simp [initTable]) (by simp [h])
  · exact fun h => hb _ _ ▸ key [c.fieldTypeTiny] _ (by simp [initTable]) (by simp [h])
  · exact fun h => hb _ _ ▸ key _ _ (by simp [initTable]) h
  · exact fun h => hb _ _ ▸ key _ _ (by simp [initTable]) h
  · exact fun h => hb _ _ ▸ key [c.fieldTypeLongLong] _ (by simp [initTable]) (by simp [h])
  · exact fun h => key [c.fieldTypeFloat] _ (by simp [initTable]) (by simp [h])
  · exact fun h => key [c.fieldTypeDouble] _ (by simp [initTable]) (by simp [h])
  · exact fun h => key _ _ (by simp [initTable]) h
  · exact fun h => key _ _ (by simp [initTable]) h
  · exact fun h => key [c.fieldTypeTime] _ (by simp [initTable]) (by simp [h])
  · exact fun h => key _ _ (by simp [initTable]) h

/-- C4, at the protocol's constants and the columns TINYINT UNSIGNED, VARCHAR,
DATETIME of a connection without `parseTime`: `init` succeeds and installs a
plan of three entries. -/
theorem C4_init_plan_witness :
    protocolConsts.tags.Nodup
      ∧ (binaryRows.init protocolConsts
          ⟨⟨⟨⟨"UTC"⟩⟩, false⟩, [⟨1, 32⟩, ⟨15, 0⟩, ⟨12, 0⟩], []⟩).2 = none
      ∧ (binaryRows.init protocolConsts
          ⟨⟨⟨⟨"UTC"⟩⟩, false⟩, [⟨1, 32⟩, ⟨15, 0⟩, ⟨12, 0⟩], []⟩).1.storer.length = 3 :=
  have h := C4_init_plan protocolConsts
    ⟨⟨⟨⟨"UTC"⟩⟩, false⟩, [⟨1, 32⟩, ⟨15, 0⟩, ⟨12, 0⟩], []⟩ (by decide) (by decide)
  ⟨by decide, h.1, h.2.1⟩

/-! ## Auxiliary lemmas: the text of the unknown-type error -/

theorem digitChar_value (k : Nat) (h : k < 10) : (Nat.digitChar k).toNat - 48 = k := by
  interval_cases k <;> rfl

theorem digitChar_ne_space (k : Nat) (h : k < 10) : Nat.digitChar k ≠ ' ' := by
  interval_cases k <;> decide

theorem toDigitsCore_value (fuel : Nat) :
    ∀ (n : Nat) (ds : List Char), n < fuel →
      (Nat.toDigitsCore 10 fuel n ds).foldl (fun acc ch => acc * 10 + (ch.toNat - 48)) 0
        = ds.foldl (fun acc ch => acc * 10 + (ch.toNat - 48)) n := by
  induction fuel with
  | zero => intro n ds h; omega
  | succ fuel ih =>
    intro n ds h
    have hm : n % 10 < 10 := Nat.mod_lt _ (by omega)
    simp only [Nat.toDigitsCore]
    split
    · rename_i h0
      simp only [List.foldl_cons, digitChar_value _ hm]
      congr 1
      omega
    · rename_i h0
      rw [ih (n / 10) _ (by omega)]
      simp only [List.foldl_cons, digitChar_value _ hm]
      congr 1
      omega

theorem toDigitsCore_no_space (fuel : Nat) :
    ∀ (n : Nat) (ds : List Char), (∀ ch ∈ ds, ch ≠ ' ') →
      ∀ ch ∈ Nat.toDigitsCore 10 fuel n ds, ch ≠ ' ' := by
  induction fuel with
  | zero => intro n ds h; simpa [Nat.toDigitsCore] using h
  | succ fuel ih =>
    intro n ds h
    have hm : n % 10 < 10 := Nat.mod_lt _ (by omega)
    have hds : ∀ ch ∈ Nat.digitChar (n % 10) :: ds, ch ≠ ' ' := by
      intro ch hch
      rcases List.mem_cons.1 hch with rfl | hch
      · exact digitChar_ne_space _ hm
      · exact h ch hch
    simp only [Nat.toDigitsCore]
    split
    · exact hds
    · exact ih _ _ hds

theorem decimalValue_repr (n : Nat) : decimalValue (toString n).data = n := by
  show decimalValue (Nat.toDigits 10 n) = n
  unfold decimalValue Nat.toDigits
  rw [toDigitsCore_value (n + 1) n [] (by omega)]
  rfl

theorem repr_no_space (n : Nat) : ∀ ch ∈ (toString n).data, ch ≠ ' ' := by
  show ∀ ch ∈ Nat.toDigits 10 n, ch ≠ ' '
  exact toDigitsCore_no_space _ _ _ (by simp)

theorem split_at_space (a : List Char) :
    ∀ (a2 r r2 : List Char), (∀ ch ∈ a, ch ≠ ' ') → (∀ ch ∈ a2, ch ≠ ' ') →
      a ++ ' ' :: r = a2 ++ ' ' :: r2 → a = a2 ∧ r = r2 := by
  induction a with
  | nil =>
    intro a2 r r2 _ h2 h
    cases a2 with
    | nil => simpa using h
    | cons c a2 =>
      simp only [List.nil_append, List.cons_append, List.cons.injEq] at h
      exact absurd h.1.symm (h2 c (List.mem_cons_self _ _))
  | cons c a ih =>
    intro a2 r r2 h1 h2 h
    cases a2 with
    | nil =>
      simp only [List.nil_append, List.cons_append, List.cons.injEq] at h
      exact absurd h.1 (h1 c (List.mem_cons_self _ _))
    | cons c2 a2 =>
      simp only [List.cons_append, List.cons.injEq] at h
      obtain ⟨hc, hrest⟩ := h
      obtain ⟨ha, hr⟩ := ih a2 r r2 (fun ch hch => h1 ch (List.mem_cons_of_mem _ hch))
        (fun ch hch => h2 ch (List.mem_cons_of_mem _ hch)) hrest
      exact ⟨by rw [hc, ha], hr⟩

theorem unknownFieldType_message_inj (t i t2 i2 : Nat)
    (h : "Unknown FieldType " ++ toString t ++ " in column " ++ toString i
      = "Unknown FieldType " ++ toString t2 ++ " in column " ++ toString i2) :
    t = t2 ∧ i = i2 := by
  have hd := congrArg String.data h
  simp only [String.data_append, List.append_assoc] at hd
  have h1 := List.append_cancel_left hd
  obtain ⟨ht, hr⟩ := split_at_space _ _ _ _ (repr_no_space t) (repr_no_space t2) h1
  have hi := List.append_cancel_left hr
  constructor
  · rw [← decimalValue_repr t, ← decimalValue_repr t2, ht]
  · rw [← decimalValue_repr i, ← decimalValue_repr i2, hi]

/-- C5. `binaryRows.init` returns an error if and only if some column has a
field type outside the recognised tags. When it does, the receiver is left as
it was (`rows.storer` included), and the error carries the type tag and the
zero-based index of the first such column: the columns split as
`pre ++ bad :: rest` with every column of `pre` recognised and `bad` not, the
message is the text `Unknown FieldType <tag> in column <index>` with the
decimal renderings of `bad.fieldType` and `len(pre)`, and no other pair of
numbers gives that text, so the tag and the index can be read back from it. -/
theorem C5_init_error (c : Consts) (rows : binaryRows) :
    ((binaryRows.init c rows).2 ≠ none ↔ ∃ col ∈ rows.columns, col.fieldType ∉ c.tags)
    ∧ ∀ e, (binaryRows.init c rows).2 = some e →
        (binaryRows.init c rows).1 = rows
        ∧ ∃ pre bad rest, rows.columns = pre ++ bad :: rest
            ∧ (∀ col ∈ pre, col.fieldType ∈ c.tags) ∧ bad.fieldType ∉ c.tags
            ∧ e = .errorf ("Unknown FieldType " ++ toString bad.fieldType
                  ++ " in column " ++ toString pre.length)
            ∧ ∀ tag index : Nat,
                e = .errorf ("Unknown FieldType " ++ toString tag
                  ++ " in column " ++ toString index) →
                tag = bad.fieldType ∧ index = pre.length := by
  by_cases hall : ∀ col ∈ rows.columns, col.fieldType ∈ c.tags
  · rw [init_ok c rows hall]
    refine ⟨?_, by simp⟩
    simp only [ne_eq, not_true_eq_false, false_iff, not_exists, not_and, not_not]
    exact hall
  · have hex : ∃ col ∈ rows.columns, col.fieldType ∉ c.tags := by
      simpa using hall
    obtain ⟨pre, bad, rest, hcols, hpre, hbad⟩ :=
      exists_first_not (fun col : mysqlField => col.fieldType ∈ c.tags) rows.columns hex
    rw [init_error c rows pre bad rest hcols hpre hbad]
    refine ⟨by simpa using hex, ?_⟩
    intro e he
    simp only [Option.some.injEq] at he
    subst he
    refine ⟨rfl, pre, bad, rest, hcols, hpre, hbad, rfl, ?_⟩
    intro tag index h
    simp only [unknownFieldType, Error.errorf.injEq] at h
    exact unknownFieldType_message_inj tag index bad.fieldType pre.length h.symm

/-- C5, at the protocol's constants and the columns TINYINT, (tag 200), (tag 201)
with a plan already installed: `init` fails, names tag 200 and column 1, and
leaves the receiver as it was. -/
theorem C5_init_error_witness :
    (binaryRows.init protocolConsts
        ⟨⟨⟨⟨"UTC"⟩⟩, false⟩, [⟨1, 0⟩, ⟨200, 0⟩, ⟨201, 0⟩], [some .storeTime]⟩).2
      = some (.errorf "Unknown FieldType 200 in column 1")
    ∧ (binaryRows.init protocolConsts
        ⟨⟨⟨⟨"UTC"⟩⟩, false⟩, [⟨1, 0⟩, ⟨200, 0⟩, ⟨201, 0⟩], [some .storeTime]⟩).1
      = ⟨⟨⟨⟨"UTC"⟩⟩, false⟩, [⟨1, 0⟩, ⟨200, 0⟩, ⟨201, 0⟩], [some .storeTime]⟩ :=
  have h := (C5_init_error protocolConsts
    ⟨⟨⟨⟨"UTC"⟩⟩, false⟩, [⟨1, 0⟩, ⟨200, 0⟩, ⟨201, 0⟩], [some .storeTime]⟩).2
      (.errorf "Unknown FieldType 200 in column 1") (by decide)
  ⟨by decide, h.1⟩

/-! ## Auxiliary lemmas: the TIME decoder and the length-encoded codec -/

theorem getElem?_eq_getD (data : List Byte) (i : Nat) (h : i < data.length) :
    data[i]? = some (data.getD i 0) := by
  rw [List.getD_eq_getElem?_getD, List.getElem?_eq_getElem h]
  rfl

theorem hoursOf_eq (d h : Byte) : hoursOf d h = d.val * 24 + h.val := by
  have hd := d.isLt
  have hh := h.isLt
  unfold hoursOf
  omega

theorem zeroPad_length (w v : Nat) :
    (zeroPad w v).length = max w (toString v).length := by
  rw [zeroPad, String.length_append]
  simp only [String.length, List.length_replicate]
  omega

theorem bytesOf_append (a b : String) : bytesOf (a ++ b) = bytesOf a ++ bytesOf b := by
  simp [bytesOf]

theorem leValue_four_mod (data : List Byte) (p : Nat) :
    leValue data p 4 % 256 = byteAt data p := by
  have h0 := byteAt_lt data p
  simp only [leValue, Finset.sum_range_succ, Finset.range_zero, Finset.sum_empty]
  norm_num
  omega

theorem storeTime_eq_len8 (dest : Value) (data b : List Byte) (pos n : Nat)
    (hb : sliceFrom data pos = some b)
    (hc : readLengthEncodedInteger b = some (8, false, n))
    (hlen : pos + n + 8 ≤ data.length) :
    storeTime dest data pos
      = some ⟨.bytes (bytesOf ((if byteAt data (pos + n) = 1 then "-" else "")
          ++ zeroPad 2 (byteAt data (pos + n + 1) * 24 + byteAt data (pos + n + 5))
          ++ ":" ++ zeroPad 2 (byteAt data (pos + n + 6))
          ++ ":" ++ zeroPad 2 (byteAt data (pos + n + 7)))), n + 8, none⟩ := by
  have e0 : pos + (n + 1) = pos + n + 1 := by omega
  have e4 : pos + (n + 1) + 4 = pos + n + 5 := by omega
  have e5 : pos + (n + 1) + 5 = pos + n + 6 := by omega
  have e6 : pos + (n + 1) + 6 = pos + n + 7 := by omega
  simp only [storeTime, hb, hc, Option.bind_eq_bind, Option.some_bind, e0, e4, e5, e6,
    getElem?_eq_getD data (pos + n) (by omega), getElem?_eq_getD data (pos + n + 1) (by omega),
    getElem?_eq_getD data (pos + n + 5) (by omega),
    getElem?_eq_getD data (pos + n + 6) (by omega),
    getElem?_eq_getD data (pos + n + 7) (by omega), hoursOf_eq]
  simp [byteAt]

theorem storeTime_eq_len12 (dest : Value) (data b : List Byte) (pos n : Nat)
    (hb : sliceFrom data pos = some b)
    (hc : readLengthEncodedInteger b = some (12, false, n))
    (hlen : pos + n + 12 ≤ data.length) :
    storeTime dest data pos
      = some ⟨.bytes (bytesOf ((if byteAt data (pos + n) = 1 then "-" else "")
          ++ zeroPad 2 (byteAt data (pos + n + 1) * 24 + byteAt data (pos + n + 5))
          ++ ":" ++ zeroPad 2 (byteAt data (pos + n + 6))
          ++ ":" ++ zeroPad 2 (byteAt data (pos + n + 7))
          ++ "." ++ zeroPad 6 (leValue data (pos + n + 8) 4))), n + 12, none⟩ := by
  have e0 : pos + (n + 1) = pos + n + 1 := by omega
  have e4 : pos + (n + 1) + 4 = pos + n + 5 := by omega
  have e5 : pos + (n + 1) + 5 = pos + n + 6 := by omega
  have e6 : pos + (n + 1) + 6 = pos + n + 7 := by omega
  have e7 : pos + (n + 1) + 7 = pos + n + 8 := by omega
  have e11 : pos + (n + 1) + 11 = pos + n + 8 + 4 := by omega
  have hu := Uint32_slice data (pos + n + 8) (by omega)
  rw [Option.bind_eq_some] at hu
  obtain ⟨us, hus, hu⟩ := hu
  simp only [storeTime, hb, hc, Option.bind_eq_bind, Option.some_bind, e0, e4, e5, e6, e7, e11,
    hus, hu,
    getElem?_eq_getD data (pos + n) (by omega), getElem?_eq_getD data (pos + n + 1) (by omega),
    getElem?_eq_getD data (pos + n + 5) (by omega),
    getElem?_eq_getD data (pos + n + 6) (by omega),
    getElem?_eq_getD data (pos + n + 7) (by omega), hoursOf_eq]
  simp [byteAt]

theorem storeTime_eq_zero (dest : Value) (data b : List Byte) (pos n : Nat) (isNull : Bool)
    (hb : sliceFrom data pos = some b)
    (hc : readLengthEncodedInteger b = some (0, isNull, n)) :
    storeTime dest data pos
      = some ⟨if isNull then .null else .bytes (bytesOf "00:00:00"), n, none⟩ := by
  simp only [storeTime, hb, hc, Option.bind_eq_bind, Option.some_bind]
  cases isNull <;> simp

theorem nextLittleEndian_local (r r2 : List Byte) (k v : Nat)
    (h : nextLittleEndian r k = some v) (ht : r2.take k = r.take k) :
    nextLittleEndian r2 k = some v := by
  unfold nextLittleEndian at h ⊢
  split at h
  · rename_i hk
    have hl : (r2.take k).length = (r.take k).length := by rw [ht]
    simp only [List.length_take] at hl
    rw [if_pos (by omega), ht]
    exact h
  · simp at h

theorem readLengthEncodedInteger_pos (b : List Byte) (v : Nat) (isNull : Bool) (n : Nat)
    (h : readLengthEncodedInteger b = some (v, isNull, n)) : 1 ≤ n ∧ b ≠ [] := by
  cases b with
  | nil => simp [readLengthEncodedInteger] at h
  | cons b0 rest =>
    refine ⟨?_, by simp⟩
    simp only [readLengthEncodedInteger] at h
    split_ifs at h <;> simp at h <;> omega

theorem readLengthEncodedInteger_local (b b2 : List Byte) (v : Nat) (isNull : Bool) (n : Nat)
    (h : readLengthEncodedInteger b = some (v, isNull, n)) (ht : b2.take n = b.take n) :
    readLengthEncodedInteger b2 = some (v, isNull, n) := by
  obtain ⟨hn, _⟩ := readLengthEncodedInteger_pos b v isNull n h
  cases b with
  | nil => simp [readLengthEncodedInteger] at h
  | cons b0 rest =>
    cases b2 with
    | nil =>
      obtain ⟨m, rfl⟩ : ∃ m, n = m + 1 := ⟨n - 1, by omega⟩
      simp at ht
    | cons c0 rest2 =>
      obtain ⟨m, rfl⟩ : ∃ m, n = m + 1 := ⟨n - 1, by omega⟩
      simp only [List.take_succ_cons, List.cons.injEq] at ht
      obtain ⟨rfl, ht⟩ := ht
      simp only [readLengthEncodedInteger] at h ⊢
      split_ifs at h ⊢
      · exact h
      · exact h
      · simp only [Option.map_eq_some', Prod.mk.injEq] at h ⊢
        obtain ⟨w, hw, rfl, rfl, hm⟩ := h
        obtain rfl : m = 2 := by omega
        exact ⟨w, nextLittleEndian_local rest rest2 2 w hw ht, rfl, rfl, rfl⟩
      · simp only [Option.map_eq_some', Prod.mk.injEq] at h ⊢
        obtain ⟨w, hw, rfl, rfl, hm⟩ := h
        obtain rfl : m = 3 := by omega
        exact ⟨w, nextLittleEndian_local rest rest2 3 w hw ht, rfl, rfl, rfl⟩
      · simp only [Option.map_eq_some', Prod.mk.injEq] at h ⊢
        obtain ⟨w, hw, rfl, rfl, hm⟩ := h
        obtain rfl : m = 8 := by omega
        exact ⟨w, nextLittleEndian_local rest rest2 8 w hw ht, rfl, rfl, rfl⟩

theorem storeTime_local (data data2 b : List Byte) (pos n v : Nat)
    (isNull : Bool) (hb : sliceFrom data pos = some b)
    (hc : readLengthEncodedInteger b = some (v, isNull, n))
    (ht : data2.take (pos + n) = data.take (pos + n)) :
    ∃ b2, sliceFrom data2 pos = some b2
      ∧ readLengthEncodedInteger b2 = some (v, isNull, n) := by
  obtain ⟨hn, hne⟩ := readLengthEncodedInteger_pos b v isNull n hc
  unfold sliceFrom at hb
  split at hb
  · rename_i hpos
    simp only [Option.some.injEq] at hb
    subst hb
    have hlt : pos < data.length := by
      rcases Nat.lt_or_ge pos data.length with h | h
      · exact h
      · exact absurd (List.drop_eq_nil_of_le h) hne
    have hl : (data2.take (pos + n)).length = (data.take (pos + n)).length := by rw [ht]
    simp only [List.length_take] at hl
    refine ⟨data2.drop pos, by simp only [sliceFrom]; rw [if_pos (by omega)], ?_⟩
    apply readLengthEncodedInteger_local _ _ v isNull n hc
    rw [List.take_drop, List.take_drop, ht]
  · simp at hb

theorem byteAt_of_sliceFrom (data : List Byte) (pos : Nat) (b0 : Byte) (rest : List Byte)
    (hb : sliceFrom data pos = some (b0 :: rest)) :
    byteAt data pos = b0.val ∧ pos < data.length := by
  unfold sliceFrom at hb
  split at hb
  · simp only [Option.some.injEq] at hb
    have hlt : pos < data.length := by
      rcases Nat.lt_or_ge pos data.length with h | h
      · exact h
      · rw [List.drop_eq_nil_of_le h] at hb
        simp at hb
    refine ⟨?_, hlt⟩
    have h0 := congrArg (fun l => l[0]?) hb
    simp only [List.getElem?_drop, Nat.add_zero, List.getElem?_cons_zero] at h0
    simp [byteAt, List.getD_eq_getElem?_getD, h0]
  · simp at hb

theorem readLengthEncodedInteger_first (b0 : Byte) (rest : List Byte) (v : Nat)
    (isNull : Bool) (n : Nat)
    (h : readLengthEncodedInteger (b0 :: rest) = some (v, isNull, n)) :
    (isNull = true ↔ b0.val = 0xfb) ∧ (b0.val = 0xfb ∨ b0.val = 0 → n = 1)
      ∧ (b0.val < 0xfb → v = b0.val ∧ n = 1) := by
  simp only [readLengthEncodedInteger] at h
  split_ifs at h with h1 h2 h3 h4 h5
  · simp only [Option.some.injEq, Prod.mk.injEq] at h
    obtain ⟨rfl, rfl, rfl⟩ := h
    refine ⟨by simp; omega, fun _ => rfl, fun _ => ⟨rfl, rfl⟩⟩
  · simp only [Option.some.injEq, Prod.mk.injEq] at h
    obtain ⟨rfl, rfl, rfl⟩ := h
    refine ⟨by simp [h2], fun _ => rfl, fun hx => absurd hx h1⟩
  · simp only [Option.map_eq_some', Prod.mk.injEq] at h
    obtain ⟨w, _, rfl, rfl, rfl⟩ := h
    refine ⟨by simp; omega, fun hx => by omega, fun hx => absurd hx h1⟩
  · simp only [Option.map_eq_some', Prod.mk.injEq] at h
    obtain ⟨w, _, rfl, rfl, rfl⟩ := h
    refine ⟨by simp; omega, fun hx => by omega, fun hx => absurd hx h1⟩
  · simp only [Option.map_eq_some', Prod.mk.injEq] at h
    obtain ⟨w, _, rfl, rfl, rfl⟩ := h
    refine ⟨by simp; omega, fun hx => by omega, fun hx => absurd hx h1⟩

/-! ## The TIME decoder -/

/-- C6 (the claim as stated, at a failing input). The field `08 | 00 | 00 01 00 00 |
00 00 00` has length prefix 8, sign 0, days field 256, hours, minutes, seconds 0.
The claimed text renders `256*24 + 0 = 6144` hours; `storeTime` yields `00:00:00`. -/
theorem C6_counterexample :
    sliceFrom [8, 0, 0, 1, 0, 0, 0, 0, 0] 0 = some [8, 0, 0, 1, 0, 0, 0, 0, 0]
    ∧ readLengthEncodedInteger [8, 0, 0, 1, 0, 0, 0, 0, 0] = some (8, false, 1)
    ∧ leValue [8, 0, 0, 1, 0, 0, 0, 0, 0] 2 4 = 256
    ∧ storeTime .null [8, 0, 0, 1, 0, 0, 0, 0, 0] 0
        = some ⟨.bytes (bytesOf "00:00:00"), 9, none⟩
    ∧ storeTime .null [8, 0, 0, 1, 0, 0, 0, 0, 0] 0
        ≠ some ⟨.bytes (bytesOf ((if byteAt [8, 0, 0, 1, 0, 0, 0, 0, 0] 1 = 1 then "-" else "")
            ++ zeroPad 2 (leValue [8, 0, 0, 1, 0, 0, 0, 0, 0] 2 4 * 24
                + byteAt [8, 0, 0, 1, 0, 0, 0, 0, 0] 6)
            ++ ":" ++ zeroPad 2 (byteAt [8, 0, 0, 1, 0, 0, 0, 0, 0] 7)
            ++ ":" ++ zeroPad 2 (byteAt [8, 0, 0, 1, 0, 0, 0, 0, 0] 8))), 9, none⟩ := by
  decide

/-- C6 (as amended). For a TIME field whose length prefix decodes to 8 and
occupies `n` bytes, with the 8 payload bytes present, `storeTime` returns no
error, the count `n + 8`, and the text `[-]HH:MM:SS`: `-` is present iff the
sign byte is 1, `HH` is `%02d` of `(d mod 256) * 24 + h` where `d` is the
4-byte little-endian days field (only its low byte counts), `MM` and `SS` are
`%02d` of the minutes and seconds bytes. -/
theorem C6_storeTime_len8 (dest : Value) (data b : List Byte) (pos n : Nat)
    (hb : sliceFrom data pos = some b)
    (hc : readLengthEncodedInteger b = some (8, false, n))
    (hlen : pos + n + 8 ≤ data.length) :
    storeTime dest data pos
      = some ⟨.bytes (bytesOf ((if byteAt data (pos + n) = 1 then "-" else "")
          ++ zeroPad 2 (leValue data (pos + n + 1) 4 % 256 * 24 + byteAt data (pos + n + 5))
          ++ ":" ++ zeroPad 2 (byteAt data (pos + n + 6))
          ++ ":" ++ zeroPad 2 (byteAt data (pos + n + 7)))), n + 8, none⟩ := by
  rw [leValue_four_mod]
  exact storeTime_eq_len8 dest data b pos n hb hc hlen

/-- C6, at the field `08 | 00 | 00 00 00 00 | 01 02 03` (days 0, 1 h, 2 min, 3 s,
sign 0): the text is `01:02:03` and 9 bytes are consumed. -/
theorem C6_storeTime_len8_witness :
    storeTime .null [8, 0, 0, 0, 0, 0, 1, 2, 3] 0
      = some ⟨.bytes (bytesOf "01:02:03"), 9, none⟩ :=
  (C6_storeTime_len8 .null [8, 0, 0, 0, 0, 0, 1, 2, 3] [8, 0, 0, 0, 0, 0, 1, 2, 3] 0 1
    (by decide) (by decide) (by decide)).trans (by decide)

/-- C7. For a TIME field whose length prefix decodes to 12, with the 12 payload
bytes present, `storeTime` returns no error and the count `n + 12`, and its
text is the text `storeTime` yields for an 8-byte field with the same sign,
days, hours, minutes and seconds bytes, followed by `.` and `%06d` of the
4-byte little-endian microseconds field. -/
theorem C7_storeTime_len12 (dest dest8 : Value) (data b data8 b8 : List Byte)
    (pos n pos8 n8 : Nat)
    (hb : sliceFrom data pos = some b)
    (hc : readLengthEncodedInteger b = some (12, false, n))
    (hlen : pos + n + 12 ≤ data.length)
    (hb8 : sliceFrom data8 pos8 = some b8)
    (hc8 : readLengthEncodedInteger b8 = some (8, false, n8))
    (hlen8 : pos8 + n8 + 8 ≤ data8.length)
    (hsame : ∀ i < 8, byteAt data8 (pos8 + n8 + i) = byteAt data (pos + n + i)) :
    ∃ t8, storeTime dest8 data8 pos8 = some ⟨.bytes t8, n8 + 8, none⟩
      ∧ storeTime dest data pos
        = some ⟨.bytes (t8 ++ bytesOf ("." ++ zeroPad 6 (leValue data (pos + n + 8) 4))),
            n + 12, none⟩ := by
  refine ⟨_, storeTime_eq_len8 dest8 data8 b8 pos8 n8 hb8 hc8 hlen8, ?_⟩
  rw [storeTime_eq_len12 dest data b pos n hb hc hlen]
  have h0 := hsame 0 (by omega)
  have h1 := hsame 1 (by omega)
  have h5 := hsame 5 (by omega)
  have h6 := hsame 6 (by omega)
  have h7 := hsame 7 (by omega)
  simp only [Nat.add_zero, ← Nat.add_assoc] at h0 h1 h5 h6 h7
  rw [h0, h1, h5, h6, h7]
  simp only [bytesOf_append, List.append_assoc]

/-- C7, at the negative field `0c | 01 | 00 00 00 00 | 01 02 03 | 20 a1 07 00`
(microseconds 500000) and the 8-byte field `08 | 01 | 00 00 00 00 | 01 02 03`:
the text is `-01:02:03.500000`, 13 bytes are consumed. -/
theorem C7_storeTime_len12_witness :
    storeTime .null [8, 1, 0, 0, 0, 0, 1, 2, 3] 0
        = some ⟨.bytes (bytesOf "-01:02:03"), 9, none⟩
    ∧ storeTime .null [12, 1, 0, 0, 0, 0, 1, 2, 3, 0x20, 0xA1, 0x07, 0x00] 0
        = some ⟨.bytes (bytesOf "-01:02:03" ++ bytesOf ".500000"), 13, none⟩ := by
  obtain ⟨t8, h8, h12⟩ := C7_storeTime_len12 .null .null
    [12, 1, 0, 0, 0, 0, 1, 2, 3, 0x20, 0xA1, 0x07, 0x00]
    [12, 1, 0, 0, 0, 0, 1, 2, 3, 0x20, 0xA1, 0x07, 0x00]
    [8, 1, 0, 0, 0, 0, 1, 2, 3] [8, 1, 0, 0, 0, 0, 1, 2, 3] 0 1 0 1
    (by decide) (by decide) (by decide) (by decide) (by decide) (by decide) (by decide)
  have ht : t8 = bytesOf "-01:02:03" := by
    have h : storeTime .null [8, 1, 0, 0, 0, 0, 1, 2, 3] 0
        = some ⟨.bytes (bytesOf "-01:02:03"), 9, none⟩ := by decide
    rw [h8] at h
    simp only [Option.some.injEq, Ret.mk.injEq, Value.bytes.injEq] at h
    exact h.1
  subst ht
  refine ⟨h8, h12.trans ?_⟩
  decide

/-- At the buffer `fc 00 00`, a three-byte encoding of the length zero, `storeTime`
yields `00:00:00` and returns the size of that prefix, 3, as the count. -/
theorem storeTime_zero_long_prefix :
    sliceFrom [0xfc, 0, 0] 0 = some [0xfc, 0, 0]
    ∧ readLengthEncodedInteger [0xfc, 0, 0] = some (0, false, 3)
    ∧ storeTime .null [0xfc, 0, 0] 0 = some ⟨.bytes (bytesOf "00:00:00"), 3, none⟩ := by
  decide

/-- C8. Where the TIME length prefix at the cursor decodes to zero: if the prefix
is the NULL marker (first byte `0xfb`) `storeTime` yields null, if it is the
byte `0x00` it yields the text `00:00:00`; in both cases it returns no error
and the count 1, and it reads no byte after the prefix, the call giving the
same result on every buffer with the same first `pos + 1` bytes. In general,
for a prefix of `n` bytes that decodes to zero, the value is null exactly when
the first byte is `0xfb` and the text otherwise, the count is `n`, and the
result is the same on every buffer with the same first `pos + n` bytes. -/
theorem C8_storeTime_zero (dest : Value) (data b : List Byte) (pos n : Nat) (isNull : Bool)
    (hb : sliceFrom data pos = some b)
    (hc : readLengthEncodedInteger b = some (0, isNull, n)) :
    (byteAt data pos = 0xfb → storeTime dest data pos = some ⟨.null, 1, none⟩)
    ∧ (byteAt data pos = 0x00 →
        storeTime dest data pos = some ⟨.bytes (bytesOf "00:00:00"), 1, none⟩)
    ∧ (byteAt data pos = 0xfb ∨ byteAt data pos = 0x00 →
        ∀ data2 : List Byte, data2.take (pos + 1) = data.take (pos + 1) →
          storeTime dest data2 pos = storeTime dest data pos)
    ∧ storeTime dest data pos
        = some ⟨if isNull then .null else .bytes (bytesOf "00:00:00"), n, none⟩
    ∧ (isNull = true ↔ byteAt data pos = 0xfb)
    ∧ (byteAt data pos = 0xfb ∨ byteAt data pos = 0 → n = 1)
    ∧ ∀ data2 : List Byte, data2.take (pos + n) = data.take (pos + n) →
        storeTime dest data2 pos = storeTime dest data pos := by
  have hfirst : (isNull = true ↔ byteAt data pos = 0xfb)
      ∧ (byteAt data pos = 0xfb ∨ byteAt data pos = 0 → n = 1) := by
    cases b with
    | nil => simp [readLengthEncodedInteger] at hc
    | cons b0 rest =>
      rw [(byteAt_of_sliceFrom data pos b0 rest hb).1]
      exact ⟨(readLengthEncodedInteger_first b0 rest 0 isNull n hc).1,
        (readLengthEncodedInteger_first b0 rest 0 isNull n hc).2.1⟩
  have heq := storeTime_eq_zero dest data b pos n isNull hb hc
  have hloc : ∀ data2 : List Byte, data2.take (pos + n) = data.take (pos + n) →
      storeTime dest data2 pos = storeTime dest data pos := by
    intro data2 ht
    obtain ⟨b2, hb2, hc2⟩ := storeTime_local data data2 b pos n 0 isNull hb hc ht
    rw [storeTime_eq_zero dest data b pos n isNull hb hc,
      storeTime_eq_zero dest data2 b2 pos n isNull hb2 hc2]
  refine ⟨?_, ?_, ?_, heq, hfirst.1, hfirst.2, hloc⟩
  · intro h
    have hn := hfirst.2 (Or.inl h)
    have hnull := hfirst.1.2 h
    subst hn hnull
    exact heq
  · intro h
    have hn := hfirst.2 (Or.inr h)
    have hnull : isNull = false := by
      cases hi : isNull with
      | false => rfl
      | true =>
        have := hfirst.1.1 hi
        omega
    subst hn hnull
    exact heq
  · intro h data2 ht
    have hn := hfirst.2 h
    subst hn
    exact hloc data2 ht

/-- C8, at the buffers `fb` and `00`: null, respectively `00:00:00`, with one
byte consumed and no error; behind `00` two further bytes change nothing. -/
theorem C8_storeTime_zero_witness :
    storeTime (.int64 7) [0xfb] 0 = some ⟨.null, 1, none⟩
    ∧ storeTime (.int64 7) [0x00] 0 = some ⟨.bytes (bytesOf "00:00:00"), 1, none⟩
    ∧ storeTime (.int64 7) [0x00, 0xaa, 0xbb] 0 = storeTime (.int64 7) [0x00] 0 :=
  ⟨(C8_storeTime_zero (.int64 7) [0xfb] [0xfb] 0 1 true (by decide) (by decide)).1
      (by decide),
   (C8_storeTime_zero (.int64 7) [0x00] [0x00] 0 1 false (by decide) (by decide)).2.1
      (by decide),
   (C8_storeTime_zero (.int64 7) [0x00] [0x00] 0 1 false (by decide) (by decide)).2.2.1
      (by decide) [0x00, 0xaa, 0xbb] (by decide)⟩

/-- C9 (the claim as stated, at a failing input). At the one-byte buffer `05` the
length prefix decodes to 5; `storeTime` reads the sign byte `data[pos+n]`
before it looks at the length, which is out of range here: the call panics
and returns no error value. -/
theorem C9_counterexample :
    sliceFrom [5] 0 = some [5]
    ∧ readLengthEncodedInteger [5] = some (5, false, 1)
    ∧ storeTime .null [5] 0 = none := by
  decide

/-- C9 (as amended). Where the TIME length prefix decodes to a value `L` other
than 0, 8 and 12, occupies `n` bytes and is followed by at least one byte,
`storeTime` returns the count `n` and the error with the message
`Invalid TIME-packet length L`, and leaves `*dest` as it was. -/
theorem C9_storeTime_invalid_length (dest : Value) (data b : List Byte) (pos n L : Nat)
    (isNull : Bool) (hb : sliceFrom data pos = some b)
    (hc : readLengthEncodedInteger b = some (L, isNull, n))
    (h0 : L ≠ 0) (h8 : L ≠ 8) (h12 : L ≠ 12) (hlen : pos + n < data.length) :
    storeTime dest data pos
      = some ⟨dest, n, some (.errorf ("Invalid TIME-packet length " ++ toString L))⟩ := by
  simp only [storeTime, hb, hc, Option.bind_eq_bind, Option.some_bind, if_neg h0, if_neg h8,
    if_neg h12, getElem?_eq_getD data (pos + n) hlen]
  rfl

/-- C9, at the buffer `05 00` with 7 in the slot: the error names the length 5,
one byte is consumed and the slot still holds 7. -/
theorem C9_storeTime_invalid_length_witness :
    storeTime (.int64 7) [5, 0] 0
      = some ⟨.int64 7, 1, some (.errorf "Invalid TIME-packet length 5")⟩ :=
  (C9_storeTime_invalid_length (.int64 7) [5, 0] [5, 0] 0 1 5 false (by decide) (by decide)
    (by decide) (by decide) (by decide) (by decide)).trans (by decide)

/-! ## The length-encoded byte-string decoder -/

/-- C10. `storeLengthCodedBinary` is the length-encoded string codec applied to
`data[pos:]`: whatever value, null flag, count and error the codec returns, the
count and the error are returned unchanged and `*dest` is null when the flag is
set and the returned bytes otherwise. Hence a field that starts with the NULL
sentinel `0xfb` gives null, count 1 and no error, and a field with a one-byte
prefix `L` (below `0xfb`) followed by at least `L` bytes gives exactly those
`L` bytes and the count `1 + L`. The bytes `03 'a' 'b' 'c'` decode to `abc`
with count 4. -/
theorem C10_storeLengthCodedBinary (dest : Value) (data : List Byte) (pos : Nat) :
    (∀ (b v : List Byte) (isNull : Bool) (n : Nat) (err : Option Error),
        sliceFrom data pos = some b →
        readLengthEncodedString b = some (v, isNull, n, err) →
        storeLengthCodedBinary dest data pos
          = some ⟨if isNull then .null else .bytes v, n, err⟩)
    ∧ (data[pos]? = some 0xfb →
        storeLengthCodedBinary dest data pos = some ⟨.null, 1, none⟩)
    ∧ (∀ L : Byte, data[pos]? = some L → L.val < 0xfb → pos + 1 + L.val ≤ data.length →
        storeLengthCodedBinary dest data pos
          = some ⟨.bytes ((data.drop (pos + 1)).take L.val), 1 + L.val, none⟩)
    ∧ storeLengthCodedBinary dest [0x03, 0x61, 0x62, 0x63] 0
        = some ⟨.bytes (bytesOf "abc"), 4, none⟩ := by
  have hgen : ∀ (b v : List Byte) (isNull : Bool) (n : Nat) (err : Option Error),
      sliceFrom data pos = some b →
      readLengthEncodedString b = some (v, isNull, n, err) →
      storeLengthCodedBinary dest data pos
        = some ⟨if isNull then .null else .bytes v, n, err⟩ := by
    intro b v isNull n err hb hc
    simp only [storeLengthCodedBinary, hb, hc, Option.bind_eq_bind, Option.some_bind]
    rfl
  have hdrop : ∀ L : Byte, data[pos]? = some L →
      sliceFrom data pos = some (L :: data.drop (pos + 1)) ∧ pos < data.length := by
    intro L hL
    obtain ⟨hlt, hget⟩ := List.getElem?_eq_some.1 hL
    refine ⟨?_, hlt⟩
    simp only [sliceFrom]
    rw [if_pos (by omega), List.drop_eq_getElem_cons hlt, hget]
  refine ⟨hgen, ?_, ?_, rfl⟩
  · intro h
    obtain ⟨hs, _⟩ := hdrop _ h
    rw [hgen _ [] true 1 none hs rfl]
    rfl
  · intro L hL hlt hlen
    obtain ⟨hs, hp⟩ := hdrop L hL
    have hc : readLengthEncodedString (L :: data.drop (pos + 1))
        = some ((data.drop (pos + 1)).take L.val, false, 1 + L.val, none) := by
      simp [readLengthEncodedString, readLengthEncodedInteger, hlt]
      omega
    rw [hgen _ _ false _ none hs hc]
    simp

/-- C10, at the buffers `03 'a' 'b' 'c'` and `03 'a' 'b'`: the first decodes to
the three bytes `abc` with count 4, the second returns the codec's
`TruncatedData` and count unchanged. -/
theorem C10_storeLengthCodedBinary_witness :
    storeLengthCodedBinary .null [0x03, 0x61, 0x62, 0x63] 0
        = some ⟨.bytes [0x61, 0x62, 0x63], 4, none⟩
    ∧ storeLengthCodedBinary .null [0x03, 0x61, 0x62] 0
        = some ⟨.bytes [], 1, some .TruncatedData⟩ :=
  ⟨((C10_storeLengthCodedBinary .null [0x03, 0x61, 0x62, 0x63] 0).2.2.1 3
      (by decide) (by decide) (by decide)).trans (by decide),
   ((C10_storeLengthCodedBinary .null [0x03, 0x61, 0x62] 0).1 [0x03, 0x61, 0x62] [] false 1
      (some .TruncatedData) (by decide) (by decide)).trans (by decide)⟩

/-! ## Fixed-width decoders on short buffers and the 32-bit signed decoder -/

theorem getElem?_none (data : List Byte) (i : Nat) (h : data.length < i + 1) :
    data[i]? = none :=
  List.getElem?_eq_none (by omega)

theorem leValue_four (data : List Byte) (p : Nat) :
    leValue data p 4 = byteAt data p + byteAt data (p + 1) * 256
      + byteAt data (p + 2) * 65536 + byteAt data (p + 3) * 16777216 := by
  simp only [leValue, Finset.sum_range_succ, Finset.range_zero, Finset.sum_empty]
  norm_num

theorem storeInt32_eq (dest : Value) (data : List Byte) (pos : Nat)
    (h : pos + 4 ≤ data.length) :
    storeInt32 dest data pos
      = some ⟨.int64 (twosComplement 2 (byteAt data pos + 256 * byteAt data (pos + 1))),
          4, none⟩ := by
  have hu := Uint32_slice data pos h
  rw [Option.bind_eq_some] at hu
  obtain ⟨s, hs, hu⟩ := hu
  have h0 := byteAt_lt data pos
  have h1 := byteAt_lt data (pos + 1)
  have hlow : byteAt data pos + 256 * byteAt data (pos + 1) < 256 ^ 2 := by omega
  have hr := twosComplement_range 2 _ (by omega) hlow
  have hmod : ((leValue data pos 4 : Nat) : Int) % 2 ^ 16
      = ((byteAt data pos + 256 * byteAt data (pos + 1) : Nat) : Int) % 2 ^ 16 := by
    rw [leValue_four]
    push_cast
    omega
  have h16 : int16 ((leValue data pos 4 : Nat) : Int)
      = twosComplement 2 (byteAt data pos + 256 * byteAt data (pos + 1)) := by
    rw [← toSigned_eq_twosComplement 2 _ hlow]
    simp only [int16, toSigned, hmod]
  simp only [storeInt32, hs, hu, Option.bind_eq_bind, Option.some_bind, Option.pure_def, h16]
  rw [int64_of_range _ (by omega) (by omega)]

/-- C11 (the claim as stated, at a failing input). On the empty buffer one byte
is missing for `storeUint8` and `storeInt8`; the index `data[pos]` is out of
range and the call panics: no error value is returned, so `TruncatedData` is
not reported. -/
theorem C11_counterexample :
    storeUint8 .null [] 0 = none ∧ storeInt8 .null [] 0 = none
    ∧ ¬ ∃ r, storeUint8 .null [] 0 = some r ∧ r.err = some .TruncatedData := by
  refine ⟨by decide, by decide, ?_⟩
  rintro ⟨r, h, _⟩
  have h0 : storeUint8 .null ([] : List Byte) 0 = none := by decide
  rw [h0] at h
  cases h

/-- C11 (as amended). No fixed-width integer decoder reports `TruncatedData`:
none has a length check, and whenever one of them returns, on a short buffer
or not, it returns its width as the count and a nil error. With no byte left
at the cursor the 1-byte decoders fail on the index `data[pos]`, which is out
of range. -/
theorem C11_no_TruncatedData (dest : Value) (data : List Byte) (pos : Nat) :
    (∀ r, storeUint8 dest data pos = some r → r.n = 1 ∧ r.err = none)
    ∧ (∀ r, storeInt8 dest data pos = some r → r.n = 1 ∧ r.err = none)
    ∧ (∀ r, storeUint16 dest data pos = some r → r.n = 2 ∧ r.err = none)
    ∧ (∀ r, storeInt16 dest data pos = some r → r.n = 2 ∧ r.err = none)
    ∧ (∀ r, storeUint32 dest data pos = some r → r.n = 4 ∧ r.err = none)
    ∧ (∀ r, storeInt32 dest data pos = some r → r.n = 4 ∧ r.err = none)
    ∧ (∀ r, storeUint64 dest data pos = some r → r.n = 8 ∧ r.err = none)
    ∧ (∀ r, storeInt64 dest data pos = some r → r.n = 8 ∧ r.err = none)
    ∧ (data.length < pos + 1 →
        storeUint8 dest data pos = none ∧ storeInt8 dest data pos = none) := by
  refine ⟨?_, ?_, ?_, ?_, ?_, ?_, ?_, ?_, fun h => ?_⟩
  · intro r h
    simp only [storeUint8, Option.bind_eq_bind, Option.bind_eq_some, Option.pure_def,
      Option.some.injEq] at h
    obtain ⟨_, _, rfl⟩ := h
    exact ⟨rfl, rfl⟩
  · intro r h
    simp only [storeInt8, Option.bind_eq_bind, Option.bind_eq_some, Option.pure_def,
      Option.some.injEq] at h
    obtain ⟨_, _, rfl⟩ := h
    exact ⟨rfl, rfl⟩
  · intro r h
    simp only [storeUint16, Option.bind_eq_bind, Option.bind_eq_some, Option.pure_def,
      Option.some.injEq] at h
    obtain ⟨_, _, _, _, rfl⟩ := h
    exact ⟨rfl, rfl⟩
  · intro r h
    simp only [storeInt16, Option.bind_eq_bind, Option.bind_eq_some, Option.pure_def,
      Option.some.injEq] at h
    obtain ⟨_, _, _, _, rfl⟩ := h
    exact ⟨rfl, rfl⟩
  · intro r h
    simp only [storeUint32, Option.bind_eq_bind, Option.bind_eq_some, Option.pure_def,
      Option.some.injEq] at h
    obtain ⟨_, _, _, _, rfl⟩ := h
    exact ⟨rfl, rfl⟩
  · intro r h
    simp only [storeInt32, Option.bind_eq_bind, Option.bind_eq_some, Option.pure_def,
      Option.some.injEq] at h
    obtain ⟨_, _, _, _, rfl⟩ := h
    exact ⟨rfl, rfl⟩
  · intro r h
    simp only [storeUint64, Option.bind_eq_bind, Option.bind_eq_some, Option.pure_def,
      Option.some.injEq] at h
    obtain ⟨_, _, _, _, rfl⟩ := h
    exact ⟨rfl, rfl⟩
  · intro r h
    simp only [storeInt64, Option.bind_eq_bind, Option.bind_eq_some, Option.pure_def,
      Option.some.injEq] at h
    obtain ⟨_, _, _, _, rfl⟩ := h
    exact ⟨rfl, rfl⟩
  · simp [storeUint8, storeInt8, getElem?_none data pos h]

/-- C11, at the cursor 1 of the one-byte buffer `01`, where every width is short:
the 1-byte decoders panic, and a result of `storeUint16` there could only
carry the count 2 and a nil error. -/
theorem C11_no_TruncatedData_witness :
    storeUint8 .null [1] 1 = none ∧ storeInt8 .null [1] 1 = none
    ∧ ∀ r, storeUint16 .null [1] 1 = some r → r.n = 2 ∧ r.err = none :=
  have h := C11_no_TruncatedData .null [1] 1
  ⟨(h.2.2.2.2.2.2.2.2 (by decide)).1, (h.2.2.2.2.2.2.2.2 (by decide)).2, h.2.2.1⟩

/-- C15. With 4 bytes left at the cursor, the value `storeInt32` stores is the
16-bit two's-complement reading of the low two payload bytes
(`data[pos] + 256*data[pos+1]`, minus 65536 from 32768 on), as an `int64`; it
lies in `[-32768, 32767]`, and it is the same on every buffer that has the
same two bytes at `pos` and `pos+1`, whatever the two high payload bytes. -/
theorem C15_storeInt32_low16 (dest : Value) (data : List Byte) (pos : Nat)
    (h : pos + 4 ≤ data.length) :
    storeInt32 dest data pos
        = some ⟨.int64 (twosComplement 2 (byteAt data pos + 256 * byteAt data (pos + 1))),
            4, none⟩
    ∧ -32768 ≤ twosComplement 2 (byteAt data pos + 256 * byteAt data (pos + 1))
    ∧ twosComplement 2 (byteAt data pos + 256 * byteAt data (pos + 1)) ≤ 32767
    ∧ ∀ (dest2 : Value) (data2 : List Byte), pos + 4 ≤ data2.length →
        byteAt data2 pos = byteAt data pos →
        byteAt data2 (pos + 1) = byteAt data (pos + 1) →
        storeInt32 dest2 data2 pos = storeInt32 dest data pos := by
  have h0 := byteAt_lt data pos
  have h1 := byteAt_lt data (pos + 1)
  have hr := twosComplement_range 2 (byteAt data pos + 256 * byteAt data (pos + 1))
    (by omega) (by omega)
  refine ⟨storeInt32_eq dest data pos h, by omega, by omega, ?_⟩
  intro dest2 data2 h2 e0 e1
  rw [storeInt32_eq dest data pos h, storeInt32_eq dest2 data2 pos h2, e0, e1]

/-- C15, at the payloads `A0 86 01 00` and `A0 86 FF 7F`: both decode to -31072,
the 16-bit reading of `A0 86`. -/
theorem C15_storeInt32_low16_witness :
    storeInt32 .null [0xA0, 0x86, 0x01, 0x00] 0 = some ⟨.int64 (-31072), 4, none⟩
    ∧ storeInt32 .null [0xA0, 0x86, 0xFF, 0x7F] 0
        = storeInt32 .null [0xA0, 0x86, 0x01, 0x00] 0 :=
  have h := C15_storeInt32_low16 .null [0xA0, 0x86, 0x01, 0x00] 0 (by decide)
  ⟨h.1.trans (by decide),
    h.2.2.2 .null [0xA0, 0x86, 0xFF, 0x7F] (by decide) (by decide) (by decide)⟩

/-! ## Auxiliary lemmas: which bytes `storeTime` depends on -/

theorem byteAt_congr (data data2 : List Byte) (i : Nat) (h : data2[i]? = data[i]?) :
    byteAt data2 i = byteAt data i := by
  simp only [byteAt, List.getD_eq_getElem?_getD, h]

theorem leValue_congr (data data2 : List Byte) (p w : Nat)
    (h : ∀ i, i < w → byteAt data2 (p + i) = byteAt data (p + i)) :
    leValue data2 p w = leValue data p w := by
  unfold leValue
  apply Finset.sum_congr rfl
  intro i hi
  rw [h i (Finset.mem_range.1 hi)]

theorem sliceFrom_eq (data b : List Byte) (pos : Nat) (hb : sliceFrom data pos = some b) :
    b = data.drop pos ∧ pos ≤ data.length := by
  unfold sliceFrom at hb
  split at hb
  · rename_i h
    simp only [Option.some.injEq] at hb
    exact ⟨hb.symm, h⟩
  · simp at hb

theorem readLengthEncodedInteger_agree (data data2 b : List Byte) (pos n v : Nat)
    (isNull : Bool) (hb : sliceFrom data pos = some b)
    (hc : readLengthEncodedInteger b = some (v, isNull, n))
    (hag : ∀ i, pos ≤ i → i < pos + n → data2[i]? = data[i]?) :
    ∃ b2, sliceFrom data2 pos = some b2
      ∧ readLengthEncodedInteger b2 = some (v, isNull, n) := by
  obtain ⟨hn, hne⟩ := readLengthEncodedInteger_pos b v isNull n hc
  obtain ⟨rfl, hpos⟩ := sliceFrom_eq data b pos hb
  have hlt : pos < data.length := by
    rcases Nat.lt_or_ge pos data.length with h | h
    · exact h
    · exact absurd (List.drop_eq_nil_of_le h) hne
  have h2 : pos < data2.length := by
    have h0 := hag pos (Nat.le_refl _) (by omega)
    rw [List.getElem?_eq_getElem hlt] at h0
    exact (List.getElem?_eq_some.1 h0).1
  refine ⟨data2.drop pos, by simp only [sliceFrom]; rw [if_pos (by omega)], ?_⟩
  apply readLengthEncodedInteger_local _ _ v isNull n hc
  apply List.ext_getElem?
  intro i
  simp only [List.getElem?_take, List.getElem?_drop]
  split
  · exact hag (pos + i) (by omega) (by omega)
  · rfl

theorem length_of_agree (data data2 : List Byte) (i : Nat) (hi : i < data.length)
    (h : data2[i]? = data[i]?) : i < data2.length := by
  rw [List.getElem?_eq_getElem hi] at h
  exact (List.getElem?_eq_some.1 h).1

theorem storeTime_agree (dest : Value) (data data2 b : List Byte) (pos n num : Nat)
    (hb : sliceFrom data pos = some b)
    (hc : readLengthEncodedInteger b = some (num, false, n))
    (hnum : num = 8 ∨ num = 12) (hlen : pos + n + num ≤ data.length)
    (hlen2 : pos + n + num ≤ data2.length)
    (hlo : ∀ i, pos ≤ i → i < pos + n + 2 → data2[i]? = data[i]?)
    (hhi : ∀ i, pos + n + 5 ≤ i → i < pos + n + num → data2[i]? = data[i]?) :
    storeTime dest data2 pos = storeTime dest data pos := by
  obtain ⟨b2, hb2, hc2⟩ := readLengthEncodedInteger_agree data data2 b pos n num false hb hc
    (fun i h1 h2 => hlo i h1 (by omega))
  have e0 := byteAt_congr data data2 (pos + n) (hlo _ (by omega) (by omega))
  have e1 := byteAt_congr data data2 (pos + n + 1) (hlo _ (by omega) (by omega))
  have e5 := byteAt_congr data data2 (pos + n + 5) (hhi _ (by omega) (by omega))
  have e6 := byteAt_congr data data2 (pos + n + 6) (hhi _ (by omega) (by omega))
  have e7 := byteAt_congr data data2 (pos + n + 7) (hhi _ (by omega) (by omega))
  rcases hnum with rfl | rfl
  · rw [storeTime_eq_len8 dest data b pos n hb hc hlen,
      storeTime_eq_len8 dest data2 b2 pos n hb2 hc2 hlen2, e0, e1, e5, e6, e7]
  · have eus := leValue_congr data data2 (pos + n + 8) 4
      (fun i hi => byteAt_congr data data2 _ (hhi _ (by omega) (by omega)))
    rw [storeTime_eq_len12 dest data b pos n hb hc hlen,
      storeTime_eq_len12 dest data2 b2 pos n hb2 hc2 hlen2, e0, e1, e5, e6, e7, eus]

theorem hoursOf_le (d h : Byte) : d.val * 24 + h.val ≤ 6375 := by
  have hd := d.isLt
  have hh := h.isLt
  omega

/-! ## The TIME decoder: days byte and reads -/

/-- C16. For a TIME field with an 8- or 12-byte payload, the hours text of
`storeTime` is `%02d` of `d0*24 + h` computed exactly, `d0` being the first
byte of the days field and `h` the hours byte: the 16-bit operand never wraps
(`d0*24 + h ≤ 6375 < 65536`), and the three higher bytes of the days field are
ignored, the call giving the same result on every buffer that differs from
`data` only in those three bytes. -/
theorem C16_storeTime_days_low_byte (dest : Value) (data b : List Byte) (pos n num : Nat)
    (hb : sliceFrom data pos = some b)
    (hc : readLengthEncodedInteger b = some (num, false, n))
    (hnum : num = 8 ∨ num = 12) (hlen : pos + n + num ≤ data.length) :
    storeTime dest data pos
        = some ⟨.bytes (bytesOf ((if byteAt data (pos + n) = 1 then "-" else "")
            ++ zeroPad 2 (byteAt data (pos + n + 1) * 24 + byteAt data (pos + n + 5))
            ++ ":" ++ zeroPad 2 (byteAt data (pos + n + 6))
            ++ ":" ++ zeroPad 2 (byteAt data (pos + n + 7))
            ++ (if num = 12 then "." ++ zeroPad 6 (leValue data (pos + n + 8) 4) else ""))),
            n + num, none⟩
    ∧ (∀ d h : Byte, hoursOf d h = d.val * 24 + h.val ∧ d.val * 24 + h.val ≤ 6375)
    ∧ ∀ data2 : List Byte, data2.length = data.length →
        (∀ i, i ≠ pos + n + 2 → i ≠ pos + n + 3 → i ≠ pos + n + 4 → data2[i]? = data[i]?) →
        storeTime dest data2 pos = storeTime dest data pos := by
  refine ⟨?_, fun d h => ⟨hoursOf_eq d h, hoursOf_le d h⟩, ?_⟩
  · rcases hnum with rfl | rfl
    · rw [storeTime_eq_len8 dest data b pos n hb hc hlen]
      simp
    · rw [storeTime_eq_len12 dest data b pos n hb hc hlen]
      simp [String.append_assoc]
  · intro data2 hl hag
    exact storeTime_agree dest data data2 b pos n num hb hc hnum hlen (by omega)
      (fun i _ h2 => hag i (by omega) (by omega) (by omega))
      (fun i h1 _ => hag i (by omega) (by omega) (by omega))

/-- C16, at the field `08 | 00 | 01 00 00 00 | 02 03 04` and the same field with
the days bytes `01 ff ff ff`: both give `26:03:04`. -/
theorem C16_storeTime_days_low_byte_witness :
    storeTime .null [8, 0, 1, 0, 0, 0, 2, 3, 4] 0
        = some ⟨.bytes (bytesOf "26:03:04"), 9, none⟩
    ∧ storeTime .null [8, 0, 1, 0xff, 0xff, 0xff, 2, 3, 4] 0
        = storeTime .null [8, 0, 1, 0, 0, 0, 2, 3, 4] 0 :=
  have h := C16_storeTime_days_low_byte .null [8, 0, 1, 0, 0, 0, 2, 3, 4]
    [8, 0, 1, 0, 0, 0, 2, 3, 4] 0 1 8 (by decide) (by decide) (by decide) (by decide)
  ⟨h.1.trans (by decide),
    h.2.2 [8, 0, 1, 0xff, 0xff, 0xff, 2, 3, 4] (by decide) (fun i h2 h3 h4 => by
      rcases i with _ | _ | _ | _ | _ | _ | _ | _ | _ | i
      all_goals first | rfl | omega)⟩

/-- C18. Where the TIME length prefix occupies `n` bytes and decodes to 8
(respectively 12) and the buffer holds `pos + n + 8` (respectively
`pos + n + 12`) bytes, `storeTime` succeeds with the count `n + 8`
(respectively `n + 12`), and it reads no byte outside `[pos, pos + n + 8)`
(respectively `[pos, pos + n + 12)`): the call gives the same result on every
buffer with the same bytes in that range, in particular on the buffer cut
right behind it, where any further read would be out of range. -/
theorem C18_storeTime_reads_within_consumed (dest : Value) (data b : List Byte)
    (pos n num : Nat) (hb : sliceFrom data pos = some b)
    (hc : readLengthEncodedInteger b = some (num, false, n))
    (hnum : num = 8 ∨ num = 12) (hlen : pos + n + num ≤ data.length) :
    (∃ v, storeTime dest data pos = some ⟨v, n + num, none⟩)
    ∧ (∀ data2 : List Byte,
        (∀ i, pos ≤ i → i < pos + n + num → data2[i]? = data[i]?) →
        storeTime dest data2 pos = storeTime dest data pos)
    ∧ storeTime dest (data.take (pos + n + num)) pos = storeTime dest data pos := by
  have hall : ∀ data2 : List Byte,
      (∀ i, pos ≤ i → i < pos + n + num → data2[i]? = data[i]?) →
      storeTime dest data2 pos = storeTime dest data pos := by
    intro data2 hag
    have hl2 : pos + n + num - 1 < data2.length :=
      length_of_agree data data2 _ (by omega) (hag _ (by omega) (by omega))
    exact storeTime_agree dest data data2 b pos n num hb hc hnum hlen (by omega)
      (fun i h1 h2 => hag i h1 (by omega)) (fun i h1 h2 => hag i (by omega) h2)
  refine ⟨?_, hall, ?_⟩
  · rcases hnum with rfl | rfl
    · exact ⟨_, storeTime_eq_len8 dest data b pos n hb hc hlen⟩
    · exact ⟨_, storeTime_eq_len12 dest data b pos n hb hc hlen⟩
  · apply hall
    intro i _ h2
    rw [List.getElem?_take_of_lt h2]

/-- C18, at the field `08 | 00 | 00 00 00 00 | 01 02 03` followed by the bytes
`aa bb`: with and without the two bytes behind the field the result is
`01:02:03` and 9 consumed bytes. -/
theorem C18_storeTime_reads_within_consumed_witness :
    (∃ v, storeTime .null [8, 0, 0, 0, 0, 0, 1, 2, 3, 0xaa, 0xbb] 0 = some ⟨v, 9, none⟩)
    ∧ storeTime .null [8, 0, 0, 0, 0, 0, 1, 2, 3] 0
        = storeTime .null [8, 0, 0, 0, 0, 0, 1, 2, 3, 0xaa, 0xbb] 0 :=
  have h := C18_storeTime_reads_within_consumed .null
    [8, 0, 0, 0, 0, 0, 1, 2, 3, 0xaa, 0xbb] [8, 0, 0, 0, 0, 0, 1, 2, 3, 0xaa, 0xbb] 0 1 8
    (by decide) (by decide) (by decide) (by decide)
  ⟨h.1, h.2.2⟩

/-! ## The temporal mode of a plan -/

theorem recognised_of_init_ok (c : Consts) (rows : binaryRows)
    (hok : (binaryRows.init c rows).2 = none) :
    ∀ col ∈ rows.columns, col.fieldType ∈ c.tags := by
  by_contra hall
  have hex : ∃ col ∈ rows.columns, col.fieldType ∉ c.tags := by
    simpa using hall
  obtain ⟨pre, bad, rest, hcols, hpre, hbad⟩ :=
    exists_first_not (fun col : mysqlField => col.fieldType ∈ c.tags) rows.columns hex
  rw [init_error c rows pre bad rest hcols hpre hbad] at hok
  simp at hok

theorem init_entry (c : Consts) (rows : binaryRows)
    (hrec : ∀ col ∈ rows.columns, col.fieldType ∈ c.tags) (i : Nat) (col : mysqlField)
    (hcol : rows.columns[i]? = some col) :
    (binaryRows.init c rows).1.storer[i]? = some (initSwitch c rows.mc col) := by
  rw [init_ok c rows hrec]
  simp [List.getElem?_map, hcol]

/-- C12. `mysqlConn.dateStorer(dateTime)` depends on the connection alone: with
`parseTime` set it is the zoned decoder bound to the configured location, for
`dateTime` false and true alike; without it, it is `storeBinaryDateTime` for
`dateTime` true and `storeBinaryDate` for `dateTime` false. Hence in a plan
built by `init` the entries of the DATE, NEWDATE, TIMESTAMP and DATETIME
columns are either all that zoned decoder or all raw decoders. -/
theorem C12_temporal_mode (c : Consts) (rows : binaryRows) (hd : c.tags.Nodup)
    (hok : (binaryRows.init c rows).2 = none) :
    (rows.mc.parseTime = true →
      ∀ dateTime, rows.mc.dateStorer dateTime = .storeParsedBinaryDate ⟨rows.mc.cfg.loc⟩)
    ∧ (rows.mc.parseTime = false →
      rows.mc.dateStorer true = .storeBinaryDateTime
        ∧ rows.mc.dateStorer false = .storeBinaryDate)
    ∧ ((∀ (i : Nat) (col : mysqlField), rows.columns[i]? = some col →
          col.fieldType ∈ [c.fieldTypeDate, c.fieldTypeNewDate, c.fieldTypeTimestamp,
            c.fieldTypeDateTime] →
          (binaryRows.init c rows).1.storer[i]?
            = some (some (.storeParsedBinaryDate ⟨rows.mc.cfg.loc⟩)))
      ∨ (∀ (i : Nat) (col : mysqlField), rows.columns[i]? = some col →
          col.fieldType ∈ [c.fieldTypeDate, c.fieldTypeNewDate, c.fieldTypeTimestamp,
            c.fieldTypeDateTime] →
          (binaryRows.init c rows).1.storer[i]? = some (some .storeBinaryDate)
            ∨ (binaryRows.init c rows).1.storer[i]? = some (some .storeBinaryDateTime))) := by
  have hrec := recognised_of_init_ok c rows hok
  have hentry : ∀ (i : Nat) (col : mysqlField), rows.columns[i]? = some col →
      col.fieldType ∈ [c.fieldTypeDate, c.fieldTypeNewDate, c.fieldTypeTimestamp,
        c.fieldTypeDateTime] →
      (binaryRows.init c rows).1.storer[i]? = some (some (rows.mc.dateStorer false))
        ∨ (binaryRows.init c rows).1.storer[i]? = some (some (rows.mc.dateStorer true)) := by
    intro i col hcol hty
    rw [init_entry c rows hrec i col hcol]
    simp only [List.mem_cons, List.mem_singleton, List.not_mem_nil, or_false] at hty
    rcases hty with h | h | h | h
    · left
      rw [initSwitch_case c rows.mc col hd [c.fieldTypeDate, c.fieldTypeNewDate]
        (rows.mc.dateStorer false) (by simp [initTable]) (by simp [h])]
    · left
      rw [initSwitch_case c rows.mc col hd [c.fieldTypeDate, c.fieldTypeNewDate]
        (rows.mc.dateStorer false) (by simp [initTable]) (by simp [h])]
    · right
      rw [initSwitch_case c rows.mc col hd [c.fieldTypeTimestamp, c.fieldTypeDateTime]
        (rows.mc.dateStorer true) (by simp [initTable]) (by simp [h])]
    · right
      rw [initSwitch_case c rows.mc col hd [c.fieldTypeTimestamp, c.fieldTypeDateTime]
        (rows.mc.dateStorer true) (by simp [initTable]) (by simp [h])]
  refine ⟨fun hp dt => by simp [mysqlConn.dateStorer, hp],
    fun hp => by simp [mysqlConn.dateStorer, hp], ?_⟩
  cases hp : rows.mc.parseTime
  · right
    intro i col hcol hty
    have h := hentry i col hcol hty
    simp only [mysqlConn.dateStorer, hp] at h
    simpa using h
  · left
    intro i col hcol hty
    have h := hentry i col hcol hty
    simp only [mysqlConn.dateStorer, hp] at h
    simpa using h

/-- C12, at the protocol's constants and the columns DATE, TINYINT, DATETIME: with
`parseTime` the two temporal entries are the zoned decoder of the location
`UTC`, without it they are `storeBinaryDate` and `storeBinaryDateTime`. -/
theorem C12_temporal_mode_witness :
    (binaryRows.init protocolConsts
        ⟨⟨⟨⟨"UTC"⟩⟩, true⟩, [⟨10, 0⟩, ⟨1, 0⟩, ⟨12, 0⟩], []⟩).1.storer
      = [some (.storeParsedBinaryDate ⟨⟨"UTC"⟩⟩), some .storeInt8,
          some (.storeParsedBinaryDate ⟨⟨"UTC"⟩⟩)]
    ∧ (binaryRows.init protocolConsts
        ⟨⟨⟨⟨"UTC"⟩⟩, false⟩, [⟨10, 0⟩, ⟨1, 0⟩, ⟨12, 0⟩], []⟩).1.storer
      = [some .storeBinaryDate, some .storeInt8, some .storeBinaryDateTime]
    ∧ (∀ dateTime, (mysqlConn.mk ⟨⟨"UTC"⟩⟩ true).dateStorer dateTime
        = .storeParsedBinaryDate ⟨⟨"UTC"⟩⟩)
    ∧ (mysqlConn.mk ⟨⟨"UTC"⟩⟩ false).dateStorer true = .storeBinaryDateTime :=
  ⟨by decide, by decide,
    (C12_temporal_mode protocolConsts
      ⟨⟨⟨⟨"UTC"⟩⟩, true⟩, [⟨10, 0⟩, ⟨1, 0⟩, ⟨12, 0⟩], []⟩ (by decide) (by decide)).1 rfl,
    ((C12_temporal_mode protocolConsts
      ⟨⟨⟨⟨"UTC"⟩⟩, false⟩, [⟨10, 0⟩, ⟨1, 0⟩, ⟨12, 0⟩], []⟩ (by decide) (by decide)).2.1 rfl).1⟩

/-! ## Buffer ownership traces -/

theorem trace_of_call_site (stack : List Nat) (h : traceSkip < stack.length) :
    trace stack traceSkip traceLen
      = [stack.getD 3 0, stack.getD 4 0, stack.getD 5 0, stack.getD 6 0] := by
  rcases stack with _ | ⟨a0, _ | ⟨a1, _ | ⟨a2, _ | ⟨a3, _ | ⟨a4, _ | ⟨a5, _ | ⟨a6, rest⟩⟩⟩⟩⟩⟩⟩
  all_goals first
    | (simp [traceSkip] at h; done)
    | simp [trace, Callers, traceSkip, traceLen]

theorem trace_of_short_stack (stack : List Nat) (h : stack.length ≤ traceSkip) :
    trace stack traceSkip traceLen = [] := by
  rcases stack with _ | ⟨a0, _ | ⟨a1, _ | ⟨a2, _ | ⟨a3, rest⟩⟩⟩⟩
  all_goals first
    | (simp [traceSkip] at h; done)
    | simp [trace, Callers, traceSkip, traceLen]

/-- C13. `buffer.collision` leaves the receiver as it was, the recorded owner
trace `b.frames` included, and hands the logger one report made of the text
`buffer owned by `, that owner trace, the text ` wanted by ` and the trace of
the requester. A trace holds the four program counters of the call stack from
the caller of `aquire` or `collision` on (entries 3 to 6 of the stack that
`runtime.Callers` sees, 0 where the stack ends), so after `aquire` by the
owner the report names the owner's call site and the requester's call site. -/
theorem C13_collision_keeps_owner (b : buffer) (errLog : List (List Operand))
    (owner requester : List Nat) (ho : traceSkip < owner.length)
    (hr : traceSkip < requester.length) :
    (buffer.collision b errLog requester).1 = b
    ∧ (buffer.collision b errLog requester).2
        = errLog ++ [[.str "buffer owned by ", .frames b.frames, .str " wanted by ",
            .frames [requester.getD 3 0, requester.getD 4 0, requester.getD 5 0,
              requester.getD 6 0]]]
    ∧ (b.aquire owner).frames
        = [owner.getD 3 0, owner.getD 4 0, owner.getD 5 0, owner.getD 6 0]
    ∧ (buffer.collision (b.aquire owner) errLog requester).1.frames
        = [owner.getD 3 0, owner.getD 4 0, owner.getD 5 0, owner.getD 6 0]
    ∧ (buffer.collision (b.aquire owner) errLog requester).2
        = errLog ++ [[.str "buffer owned by ",
            .frames [owner.getD 3 0, owner.getD 4 0, owner.getD 5 0, owner.getD 6 0],
            .str " wanted by ",
            .frames [requester.getD 3 0, requester.getD 4 0, requester.getD 5 0,
              requester.getD 6 0]]] := by
  have hto := trace_of_call_site owner ho
  have htr := trace_of_call_site requester hr
  refine ⟨rfl, ?_, ?_, ?_, ?_⟩
  · simp only [buffer.collision, htr]
  · simp only [buffer.aquire, hto]
  · simp only [buffer.collision, buffer.aquire, hto]
  · simp only [buffer.collision, buffer.aquire, hto, htr]

/-- C13, with the owner's call site 40 and the requester's call site 50: the report
names both, and the buffer still records the owner. -/
theorem C13_collision_keeps_owner_witness :
    (buffer.collision ((buffer.mk []).aquire [1, 2, 3, 40, 41]) [] [1, 2, 3, 50, 51, 52, 53, 54]).2
        = [[.str "buffer owned by ", .frames [40, 41, 0, 0], .str " wanted by ",
            .frames [50, 51, 52, 53]]]
    ∧ (buffer.collision ((buffer.mk []).aquire [1, 2, 3, 40, 41]) []
        [1, 2, 3, 50, 51, 52, 53, 54]).1.frames = [40, 41, 0, 0] :=
  have h := C13_collision_keeps_owner (buffer.mk []) [] [1, 2, 3, 40, 41]
    [1, 2, 3, 50, 51, 52, 53, 54] (by decide) (by decide)
  ⟨h.2.2.2.2, h.2.2.2.1⟩

/-! ## The date decoders -/

theorem nextLittleEndian_le (r : List Byte) (k v : Nat) (h : nextLittleEndian r k = some v) :
    k ≤ r.length := by
  unfold nextLittleEndian at h
  split at h
  · assumption
  · simp at h

theorem readLengthEncodedInteger_le (b : List Byte) (v : Nat) (isNull : Bool) (n : Nat)
    (h : readLengthEncodedInteger b = some (v, isNull, n)) : n ≤ b.length := by
  cases b with
  | nil => simp [readLengthEncodedInteger] at h
  | cons b0 rest =>
    simp only [readLengthEncodedInteger] at h
    simp only [List.length_cons]
    split_ifs at h
    · simp only [Option.some.injEq, Prod.mk.injEq] at h
      omega
    · simp only [Option.some.injEq, Prod.mk.injEq] at h
      omega
    · simp only [Option.map_eq_some', Prod.mk.injEq] at h
      obtain ⟨w, hw, _, _, rfl⟩ := h
      have := nextLittleEndian_le rest 2 w hw
      omega
    · simp only [Option.map_eq_some', Prod.mk.injEq] at h
      obtain ⟨w, hw, _, _, rfl⟩ := h
      have := nextLittleEndian_le rest 3 w hw
      omega
    · simp only [Option.map_eq_some', Prod.mk.injEq] at h
      obtain ⟨w, hw, _, _, rfl⟩ := h
      have := nextLittleEndian_le rest 8 w hw
      omega

theorem int_add_of_lt (n num : Nat) (h : n + num < 2 ^ 63) :
    int ((n : Int) + int (num : Int)) = (n : Int) + (num : Int) := by
  have h1 : int (num : Int) = (num : Int) := int64_of_small num (by omega)
  rw [h1]
  exact_mod_cast int64_of_small (n + num) h

theorem storeBinaryDate_eq (f : Nat → List Byte → Option (Value × Option Error))
    (dest : Value) (data b : List Byte) (pos num n : Nat) (isNull : Bool)
    (hb : sliceFrom data pos = some b)
    (hc : readLengthEncodedInteger b = some (num, isNull, n)) :
    storeBinaryDate f dest data pos
      = if isNull then some ⟨.null, n, none⟩
        else (f num (data.drop (pos + n))).map
          fun r => ⟨r.1, int ((n : Int) + int (num : Int)), r.2⟩ := by
  obtain ⟨hbd, hpos⟩ := sliceFrom_eq data b pos hb
  have hn := readLengthEncodedInteger_le b num isNull n hc
  have hlen : pos + n ≤ data.length := by
    rw [hbd, List.length_drop] at hn
    omega
  have hs : sliceFrom data (pos + n) = some (data.drop (pos + n)) := by
    simp only [sliceFrom]
    rw [if_pos hlen]
  cases isNull with
  | true =>
    simp only [storeBinaryDate, hb, hc, Option.bind_eq_bind, Option.some_bind]
    rfl
  | false =>
    simp only [storeBinaryDate, hb, hc, hs, Option.bind_eq_bind, Option.some_bind]
    cases f num (data.drop (pos + n)) with
    | none => rfl
    | some r => rfl

/-- C17 (the claim as stated, at a failing input). The buffer `fe ff ff ff ff ff ff
ff ff` is a 9-byte length prefix carrying `num = 2^64 - 1`. With a formatter
that rejects the length, `storeBinaryDate` returns the formatter's error and
the count 8: `int(num)` is -1, so `n + int(num)` is `9 - 1`, not `n + num`. -/
theorem C17_counterexample :
    readLengthEncodedInteger [0xfe, 0xff, 0xff, 0xff, 0xff, 0xff, 0xff, 0xff, 0xff]
        = some (18446744073709551615, false, 9)
    ∧ storeBinaryDate (fun _ _ => some (Value.null, some (Error.errorf "invalid length")))
          .null [0xfe, 0xff, 0xff, 0xff, 0xff, 0xff, 0xff, 0xff, 0xff] 0
        = some ⟨.null, 8, some (.errorf "invalid length")⟩
    ∧ storeBinaryDate (fun _ _ => some (Value.null, some (Error.errorf "invalid length")))
          .null [0xfe, 0xff, 0xff, 0xff, 0xff, 0xff, 0xff, 0xff, 0xff] 0
        ≠ some ⟨.null, 9 + 18446744073709551615, some (.errorf "invalid length")⟩ := by
  decide

/-- C17 (as amended). For `storeBinaryDate`, `storeBinaryDateTime` and
`timeLocation.storeParsedBinaryDate`, with a length prefix at `pos` that
occupies `n` bytes: if the prefix is the NULL marker, the value is null, the
error is none and the count is the prefix size, which is 1; otherwise, with
the payload length `num`, the value and the error are those the formatter or
parser returns on `(num, data[pos+n:])` (with the location in zoned mode),
unchanged, and the count is `n + int(num)` in 64-bit signed arithmetic,
whether or not formatting succeeded; that count is `n + num` as long as
`n + num` is below `2^63`. -/
theorem C17_date_decoders
    (formatBinaryDate formatBinaryDateTime : Nat → List Byte → Option (Value × Option Error))
    (parseBinaryDateTime : Nat → List Byte → Location → Option (Value × Option Error))
    (t : timeLocation) (dest : Value) (data b : List Byte) (pos num n : Nat) (isNull : Bool)
    (hb : sliceFrom data pos = some b)
    (hc : readLengthEncodedInteger b = some (num, isNull, n)) :
    (isNull = true →
      n = 1
      ∧ storeBinaryDate formatBinaryDate dest data pos = some ⟨.null, n, none⟩
      ∧ storeBinaryDateTime formatBinaryDateTime dest data pos = some ⟨.null, n, none⟩
      ∧ t.storeParsedBinaryDate parseBinaryDateTime dest data pos = some ⟨.null, n, none⟩)
    ∧ (isNull = false →
      storeBinaryDate formatBinaryDate dest data pos
          = (formatBinaryDate num (data.drop (pos + n))).map
              (fun r => ⟨r.1, int ((n : Int) + int (num : Int)), r.2⟩)
      ∧ storeBinaryDateTime formatBinaryDateTime dest data pos
          = (formatBinaryDateTime num (data.drop (pos + n))).map
              (fun r => ⟨r.1, int ((n : Int) + int (num : Int)), r.2⟩)
      ∧ t.storeParsedBinaryDate parseBinaryDateTime dest data pos
          = (parseBinaryDateTime num (data.drop (pos + n)) t.loc).map
              (fun r => ⟨r.1, int ((n : Int) + int (num : Int)), r.2⟩))
    ∧ (n + num < 2 ^ 63 → int ((n : Int) + int (num : Int)) = (n : Int) + (num : Int)) := by
  have hD := storeBinaryDate_eq formatBinaryDate dest data b pos num n isNull hb hc
  have hDT : storeBinaryDateTime formatBinaryDateTime dest data pos = _ :=
    storeBinaryDate_eq formatBinaryDateTime dest data b pos num n isNull hb hc
  have hP : t.storeParsedBinaryDate parseBinaryDateTime dest data pos = _ :=
    storeBinaryDate_eq (fun num d => parseBinaryDateTime num d t.loc) dest data b pos num n
      isNull hb hc
  refine ⟨?_, ?_, int_add_of_lt n num⟩
  · intro h
    subst h
    refine ⟨?_, by simpa using hD, by simpa using hDT, by simpa using hP⟩
    cases b with
    | nil => simp [readLengthEncodedInteger] at hc
    | cons b0 rest =>
      have hf := readLengthEncodedInteger_first b0 rest num true n hc
      exact hf.2.1 (Or.inl (hf.1.1 rfl))
  · intro h
    subst h
    exact ⟨by simpa using hD, by simpa using hDT, by simpa using hP⟩

/-- C17, at the DATE field `04 | e8 07 03 0f` with a formatter that hands back its
payload, and at the NULL marker `fb`: the first gives the formatter's value
and the count 5, the second null and the count 1. -/
theorem C17_date_decoders_witness :
    storeBinaryDate (fun _ d => some (Value.bytes d, none)) .null [4, 0xe8, 0x07, 3, 15] 0
        = some ⟨.bytes [0xe8, 0x07, 3, 15], 5, none⟩
    ∧ storeBinaryDateTime (fun _ d => some (Value.bytes d, none)) .null [0xfb] 0
        = some ⟨.null, 1, none⟩ :=
  ⟨((C17_date_decoders (fun _ d => some (Value.bytes d, none))
      (fun _ d => some (Value.bytes d, none)) (fun _ d _ => some (Value.bytes d, none))
      ⟨⟨"UTC"⟩⟩ .null [4, 0xe8, 0x07, 3, 15] [4, 0xe8, 0x07, 3, 15] 0 4 1 false
      (by decide) (by decide)).2.1 rfl).1.trans (by decide),
   ((C17_date_decoders (fun _ d => some (Value.bytes d, none))
      (fun _ d => some (Value.bytes d, none)) (fun _ d _ => some (Value.bytes d, none))
      ⟨⟨"UTC"⟩⟩ .null [0xfb] [0xfb] 0 0 1 true
      (by decide) (by decide)).1 rfl).2.2.1⟩

end Mysql
